import Mathlib

/-!
Shallow embedding of the disease-prediction subsystem of the
personalized-medicine repository:

* `ml_prediction/dataset_overlap_engine.py` (`DatasetOverlapPredictionEngine`)
* `ml_prediction/rf_prediction_engine.py`   (`RandomForestDatasetEngine`)
* `ml_prediction/custom_prediction_engine.py` (`CustomDiseasePredictionEngine`,
  only its feature-vector builder)

Python strings are modelled as lists of Unicode code points (`List ℕ`);
Python sets as `Finset`; float scores as exact rationals `ℚ`; `None`/NaN
cells as `Option`.  The trained scikit-learn random-forest model is kept
abstract: it enters only as a function producing a probability vector,
with its scikit-learn contract (probabilities in `[0,1]`) taken as a
hypothesis where a claim needs it.
-/

namespace MedAssist

/-- Code points of a string literal (helper for concrete inputs). -/
def codes (s : String) : List ℕ := s.data.map Char.toNat

/-- Python `\s` on ASCII text: space, tab, newline, carriage return,
vertical tab, form feed. -/
def isPySpace (c : ℕ) : Bool :=
  c = 32 || c = 9 || c = 10 || c = 13 || c = 11 || c = 12

/-- A character matched by the regex class `[_\s]` of `_space_re` /
`_SPACE_RE` (underscore or whitespace). -/
def isSep (c : ℕ) : Bool := c = 95 || isPySpace c

/-- The `str.lower` restricted to ASCII letters (symptom vocabulary is ASCII). -/
def lowerChar (c : ℕ) : ℕ := if 65 ≤ c ∧ c ≤ 90 then c + 32 else c

/-- The `str.upper` on one ASCII letter (used by `str.title`). -/
def upperChar (c : ℕ) : ℕ := if 97 ≤ c ∧ c ≤ 122 then c - 32 else c

/-- ASCII letter test (used by `str.title`). -/
def isAlpha (c : ℕ) : Bool := (65 ≤ c && c ≤ 90) || (97 ≤ c && c ≤ 122)

/-- Drop the trailing run of characters satisfying `p`. -/
def dropTrailing (p : ℕ → Bool) : List ℕ → List ℕ
  | [] => []
  | c :: cs =>
    let r := dropTrailing p cs
    if r = [] && p c then [] else c :: r

/-- Python `str.strip()`: remove leading and trailing whitespace. -/
def pyStrip (s : List ℕ) : List ℕ := dropTrailing isPySpace (s.dropWhile isPySpace)

/-- Worker for `re.sub(r'[_\s]+', ' ', v)`: the flag records whether the
previous character belonged to a separator run (so further separators of the
same run are absorbed). -/
def collapseGo : Bool → List ℕ → List ℕ
  | _, [] => []
  | prevSep, c :: cs =>
    if isSep c then
      if prevSep then collapseGo true cs else 32 :: collapseGo true cs
    else c :: collapseGo false cs

/-- The `re.sub(r'[_\s]+', ' ', v)`: replace every maximal run of
underscores/whitespace by a single space (code point 32). -/
def collapseSep (s : List ℕ) : List ℕ := collapseGo false s

/-- The `v.replace(' ', '_')`. -/
def spaceToUnderscore (s : List ℕ) : List ℕ :=
  s.map (fun c => if c = 32 then 95 else c)

/-- Body of `_norm` for a non-empty string:
`v = s.strip().lower(); v = re.sub(r'[_\s]+', ' ', v).strip(); v.replace(' ', '_')`.
Identical in `DatasetOverlapPredictionEngine._norm` and
`RandomForestDatasetEngine._norm`. -/
def normCore (s : List ℕ) : List ℕ :=
  spaceToUnderscore (pyStrip (collapseSep ((pyStrip s).map lowerChar)))

/-- The `_norm` (pure value; the memo cache is modelled separately):
`if not s: return ''` and otherwise `normCore`. -/
def norm (s : List ℕ) : List ℕ := if s = [] then [] else normCore s

/-- The `CustomDiseasePredictionEngine._normalize_symptom`: returns `''` for the
empty string and for the literal `'nan'`; otherwise the same pipeline as
`_norm` except that it does not re-strip after collapsing separator runs. -/
def customNorm (s : List ℕ) : List ℕ :=
  if s = [] ∨ s = codes "nan" then []
  else spaceToUnderscore (collapseSep ((pyStrip s).map lowerChar))

/-- Python `cell.split(',')` (comma = code point 44), keeping empty parts. -/
def splitComma : List ℕ → List (List ℕ)
  | [] => [[]]
  | c :: cs =>
    if c = 44 then [] :: splitComma cs
    else
      match splitComma cs with
      | [] => [[c]]
      | t :: ts => (c :: t) :: ts

/-- One raw dataset record: the disease-label cell, the `Symptom_*` cells and
the recommendation cells.  `none` models a missing value (pandas NaN). -/
structure RawRow where
  disease : List ℕ
  cells : List (Option (List ℕ))
  medicine : Option (List ℕ)
  diet : Option (List ℕ)
  avoid : Option (List ℕ)
deriving DecidableEq

/-- Python `str(cell)` on a possibly-NaN cell: NaN prints as `'nan'`. -/
def strOfCell : Option (List ℕ) → List ℕ
  | none => codes "nan"
  | some s => s

/-- The `DatasetOverlapPredictionEngine._split_cell` (the argument is already
`str(cell)`, so it is never NaN and the `cell != cell` test never fires):
split on commas if present, normalize each part, keep non-empty results. -/
def o_split_cell (cell : List ℕ) : List (List ℕ) :=
  if cell = [] then []
  else
    (if cell.contains 44 then (splitComma cell).map norm else [norm cell]).filter
      (fun p => p ≠ [])

/-- The `RandomForestDatasetEngine._split_cell`: receives the raw cell (`None` for
NaN), strips each comma-part first, and drops parts that are empty or whose
lowercase form is the literal `'nan'` before normalizing. -/
def rf_split_cell (cell : Option (List ℕ)) : List (List ℕ) :=
  match cell with
  | none => []
  | some s =>
    if s = [] then []
    else
      ((if s.contains 44 then (splitComma s).map pyStrip else [pyStrip s]).filter
        (fun p => p ≠ [] ∧ p.map lowerChar ≠ codes "nan")).map norm

/-- Symptom set of one row in `DatasetOverlapPredictionEngine._prepare`:
union of `_split_cell(str(cell))` over the row's symptom cells. -/
def o_rowSet (cells : List (Option (List ℕ))) : Finset (List ℕ) :=
  ((cells.map (fun c => o_split_cell (strOfCell c))).flatten).toFinset

/-- Symptom set of one row in `RandomForestDatasetEngine._prepare`:
`for norm_sym in _split_cell(row.get(col)): if norm_sym: sset.add(norm_sym)`. -/
def rf_rowSet (cells : List (Option (List ℕ))) : Finset (List ℕ) :=
  (((cells.map rf_split_cell).flatten).filter (fun p => p ≠ [])).toFinset

/-- All symptom tokens contributed to `all_symptoms` by the overlap engine's
`_prepare` (one entry per produced token; the set semantics is recovered by
`dedup` below). -/
def o_allTokens (raw : List RawRow) : List (List ℕ) :=
  (raw.map (fun r => (r.cells.map (fun c => o_split_cell (strOfCell c))).flatten)).flatten

/-- All symptom tokens contributed to `vocab` by the RF engine's `_prepare`
(`if norm_sym: sset.add(norm_sym)` drops empty tokens). -/
def rf_allTokens (raw : List RawRow) : List (List ℕ) :=
  (raw.map (fun r => ((r.cells.map rf_split_cell).flatten).filter (fun p => p ≠ []))).flatten

/-- The `sorted(set(tokens))`: Python sorts strings lexicographically by code
point, which is the lexicographic order on `List ℕ`; the set is modelled by
`dedup`. -/
def sortedUnique (tokens : List (List ℕ)) : List (List ℕ) :=
  List.insertionSort (· ≤ ·) tokens.dedup

/-- The `available_symptoms` built by `DatasetOverlapPredictionEngine._prepare`. -/
def o_prepareVocab (raw : List RawRow) : List (List ℕ) :=
  sortedUnique (o_allTokens raw)

/-- The `symptom_vocab` built by `RandomForestDatasetEngine._prepare`. -/
def rf_prepareVocab (raw : List RawRow) : List (List ℕ) :=
  sortedUnique (rf_allTokens raw)

/-- The `symptom_index = {s: i for i, s in enumerate(symptom_vocab)}` as the
lookup function `dict.get`: the first index of the token in the vocabulary
(the vocabulary has no duplicates, so first index and dict index agree). -/
def symptomIndex : List (List ℕ) → List ℕ → Option ℕ
  | [], _ => none
  | t :: ts, s => if t = s then some 0 else (symptomIndex ts s).map (· + 1)

/-- A compiled row of `DatasetOverlapPredictionEngine._prepare`
(`self._compiled_rows` entries). -/
structure ORow where
  disease : List ℕ
  symptoms : Finset (List ℕ)
  medicine : List ℕ
  diet : List ℕ
  rowIndex : ℕ
deriving DecidableEq

/-- Overlap-engine state after initialization (pure part; the `_normalize_cache`
side effect is modelled separately below). -/
structure OEngine where
  rows : List ORow
  availableSymptoms : List (List ℕ)
  minThreshold : ℚ
deriving DecidableEq

/-- The `_compiled_rows` entry for one raw row (overlap engine). -/
def o_compileRow (idx : ℕ) (r : RawRow) : ORow :=
  { disease := r.disease
    symptoms := o_rowSet r.cells
    medicine := pyStrip (strOfCell r.medicine)
    diet := pyStrip (strOfCell r.diet)
    rowIndex := idx }

/-- The `DatasetOverlapPredictionEngine.__init__` + `_prepare` (pure part). -/
def o_init (raw : List RawRow) (minThreshold : ℚ) : OEngine :=
  { rows := (raw.enum).map (fun p => o_compileRow p.1 p.2)
    availableSymptoms := o_prepareVocab raw
    minThreshold := minThreshold }

/-- The prediction-result mapping returned by the overlap engine.  The nested
`debug` dict is modelled by its `score` entry (`debugScore`); statuses are the
literal status strings of the source. -/
structure OResult where
  predicted_disease : List ℕ
  confidence : ℚ
  medicine_recommendation : List ℕ
  diet_recommendation : List ℕ
  status : String
  debugScore : Option ℚ
deriving DecidableEq

/-- The `score = len(inter) / len(union)` for input set `a` and row set `b`. -/
def jaccard (a b : Finset (List ℕ)) : ℚ :=
  ((a ∩ b).card : ℚ) / ((a ∪ b).card : ℚ)

/-- Loop state of the best-row scan in `DatasetOverlapPredictionEngine.predict`:
`best` (row, its intersection with the input, its score) and `best_score`. -/
structure BestSt where
  best : Option (ORow × Finset (List ℕ) × ℚ)
  bestScore : ℚ
deriving DecidableEq

/-- One iteration of the row loop in `DatasetOverlapPredictionEngine.predict`:
skip rows with empty intersection; a strictly larger score replaces `best` and
`best_score`; a score within `1e-9` of `best_score` replaces `best` only, and
only when its raw intersection is larger. -/
def stepRow (inputNorm : Finset (List ℕ)) (st : BestSt) (r : ORow) : BestSt :=
  let inter := inputNorm ∩ r.symptoms
  if inter = ∅ then st
  else
    let u := inputNorm ∪ r.symptoms
    let score : ℚ := (inter.card : ℚ) / (u.card : ℚ)
    if score > st.bestScore then ⟨some (r, inter, score), score⟩
    else
      if |score - st.bestScore| < 1 / 1000000000 then
        match st.best with
        | none => st
        | some (_, binter, _) =>
          if binter.card < inter.card then ⟨some (r, inter, score), st.bestScore⟩
          else st
      else st

/-- The `input_norm = {self._norm(s) for s in symptoms if s}`. -/
def oInputNorm (symptoms : List (List ℕ)) : Finset (List ℕ) :=
  ((symptoms.filter (fun s => s ≠ [])).map norm).toFinset

/-- The full row scan of `DatasetOverlapPredictionEngine.predict`. -/
def bestState (e : OEngine) (symptoms : List (List ℕ)) : BestSt :=
  e.rows.foldl (stepRow (oInputNorm symptoms)) ⟨none, 0⟩

/-- The `no_symptoms` result of the overlap engine. -/
def oNoSymptomsResult : OResult :=
  { predicted_disease := codes "Unknown"
    confidence := 0
    medicine_recommendation := codes "Provide at least one symptom"
    diet_recommendation := codes "—"
    status := "no_symptoms"
    debugScore := none }

/-- The `unrecognized` result of the overlap engine. -/
def oUnrecognizedResult : OResult :=
  { predicted_disease := codes "Unknown"
    confidence := 0
    medicine_recommendation := codes "Symptoms not recognized in dataset"
    diet_recommendation := codes "—"
    status := "unrecognized"
    debugScore := none }

/-- Python `round(x, 1)` on an exact rational: round to the nearest tenth,
ties to even. -/
def pyRoundInt (x : ℚ) : ℤ :=
  if x - (Int.floor x : ℚ) < 1 / 2 then Int.floor x
  else if x - (Int.floor x : ℚ) > 1 / 2 then Int.floor x + 1
  else if Int.floor x % 2 = 0 then Int.floor x else Int.floor x + 1

/-- The `round(best_score * 100, 1)`. -/
def pyRound1 (x : ℚ) : ℚ := (pyRoundInt (x * 10) : ℚ) / 10

/-- Tail of `DatasetOverlapPredictionEngine.predict` after the row scan:
the `low_match` return when `not best or best_score < self.min_threshold`,
the `success` return otherwise. -/
def o_finish (st : BestSt) (minThreshold : ℚ) : OResult :=
  if st.best = none ∨ st.bestScore < minThreshold then
    { predicted_disease := codes "Unknown"
      confidence := pyRound1 (st.bestScore * 100)
      medicine_recommendation := codes "Insufficient dataset match. Refine symptoms."
      diet_recommendation := codes "General balanced diet, hydration, rest."
      status := "low_match"
      debugScore := some st.bestScore }
  else
    match st.best with
    | none =>
      { predicted_disease := codes "Unknown"
        confidence := pyRound1 (st.bestScore * 100)
        medicine_recommendation := codes "Insufficient dataset match. Refine symptoms."
        diet_recommendation := codes "General balanced diet, hydration, rest."
        status := "low_match"
        debugScore := some st.bestScore }
    | some (row, _, _) =>
      { predicted_disease := row.disease
        confidence := pyRound1 (st.bestScore * 100)
        medicine_recommendation :=
          if row.medicine = [] then codes "Consult a healthcare provider" else row.medicine
        diet_recommendation :=
          if row.diet = [] then codes "Maintain balanced diet" else row.diet
        status := "success"
        debugScore := some st.bestScore }

/-- The `DatasetOverlapPredictionEngine.predict` (pure value; cache effect modelled
separately). -/
def o_predict (e : OEngine) (symptoms : List (List ℕ)) : OResult :=
  if symptoms = [] then oNoSymptomsResult
  else
    let inputNorm := oInputNorm symptoms
    if inputNorm = ∅ then oUnrecognizedResult
    else o_finish (bestState e symptoms) e.minThreshold

/-- Python `str.title()`: uppercase each letter that follows a non-letter,
lowercase every other letter. -/
def titleGo : Bool → List ℕ → List ℕ
  | _, [] => []
  | prevAlpha, c :: cs =>
    (if isAlpha c then (if prevAlpha then lowerChar c else upperChar c) else c)
      :: titleGo (isAlpha c) cs

/-- The `get_available_symptoms`: display form `s.replace('_', ' ').title()` of the
vocabulary (identical in both engines). -/
def getAvailableSymptoms (vocab : List (List ℕ)) : List (List ℕ) :=
  vocab.map (fun s => titleGo false (s.map (fun c => if c = 95 then 32 else c)))

/-- One dataset row as the RF engine sees it: the label cell plus the
recommendation cells, and the compiled symptom set (`_row_symptom_sets`
entry, parallel to the dataframe rows). -/
structure RFRow where
  disease : List ℕ
  medicine : Option (List ℕ)
  diet : Option (List ℕ)
  avoid : Option (List ℕ)
  sset : Finset (List ℕ)
deriving DecidableEq

/-- The trained `RandomForestClassifier`, kept abstract: its ordered class
list and its probability vector for a feature vector
(`predict_proba([vec])[0]`).  scikit-learn's contract — probabilities lie in
`[0, 1]` and are indexed parallel to `classes_` — is assumed as a hypothesis
where a claim needs it. -/
structure RFModel where
  classes : List (List ℕ)
  predictProba : List ℕ → List ℚ

/-- RF-engine state after initialization (pure part; `_normalize_cache` is
modelled separately). -/
structure RFEngine where
  rows : List RFRow
  vocab : List (List ℕ)
  model : Option RFModel

/-- The `RandomForestDatasetEngine._vectorize`: a zero vector over the vocabulary,
setting index `symptom_index.get(self._norm(s))` to 1 for each input symptom
that is found (unknown symptoms are silently dropped). -/
def rf_vectorize (e : RFEngine) (symptoms : List (List ℕ)) : List ℕ :=
  symptoms.foldl
    (fun vec s =>
      match symptomIndex e.vocab (norm s) with
      | some idx => vec.set idx 1
      | none => vec)
    (List.replicate e.vocab.length 0)

/-- First (best) index of `np.argmax` over a probability list. -/
def argmaxAux : List ℚ → ℕ → ℕ → ℚ → ℕ
  | [], _, bi, _ => bi
  | x :: xs, i, bi, bv =>
    if x > bv then argmaxAux xs (i + 1) i x else argmaxAux xs (i + 1) bi bv

/-- The `int(np.argmax(proba))`: index of the first maximal entry (0 on `[]`). -/
def argmaxIdx : List ℚ → ℕ
  | [] => 0
  | x :: xs => argmaxAux xs 1 0 x

/-- The `'nan'`, `'none'`, `''`: the markers treated as an absent recommendation. -/
def isBlankRec (s : List ℕ) : Bool :=
  s = [] || s.map lowerChar = codes "nan" || s.map lowerChar = codes "none"

/-- The `str(row.get(col, '')).strip()` followed by the blank-marker fallback used
for each recommendation column in `_best_recommendations`. -/
def recField (cell : Option (List ℕ)) (default : List ℕ) : List ℕ :=
  let v := pyStrip (strOfCell cell)
  if isBlankRec v then default else v

/-- The `RandomForestDatasetEngine._best_recommendations`: among rows whose label
equals the predicted disease, pick the first row with strictly maximal
intersection between its symptom set and the normalized input; extract its
medicine/diet/foods-to-avoid text with generic fallbacks.  When no row
carries the disease the source falls through to `...iloc[0]` on an empty
selection, raising `IndexError`; that is modelled as `none`. -/
def bestRecommendations (e : RFEngine) (disease : List ℕ)
    (inputSymptoms : List (List ℕ)) : Option (List ℕ × List ℕ × List ℕ) :=
  let inputNorm := ((inputSymptoms.filter (fun s => s ≠ [])).map norm).toFinset
  let best :=
    e.rows.foldl
      (fun (acc : Option RFRow × ℤ) r =>
        if r.disease ≠ disease then acc
        else
          let interSize : ℤ := ((inputNorm ∩ r.sset).card : ℤ)
          if interSize > acc.2 then (some r, interSize) else acc)
      (none, -1)
  match best.1 with
  | some row =>
    some (recField row.medicine (codes "Consult a healthcare provider"),
          recField row.diet (codes "Maintain a balanced diet"),
          recField row.avoid (codes "No specific foods to avoid mentioned"))
  | none => none

/-- The prediction-result mapping returned by the RF engine.  The `candidates`
list is not modelled: the source ranks ties with `np.argsort`, whose order on
equal probabilities is unspecified. -/
structure RFResult where
  predicted_disease : List ℕ
  confidence : ℚ
  medicine_recommendation : List ℕ
  diet_recommendation : List ℕ
  foods_to_avoid : List ℕ
  status : String
deriving DecidableEq

/-- The `no_symptoms` result of the RF engine. -/
def rfNoSymptomsResult : RFResult :=
  { predicted_disease := codes "Unknown"
    confidence := 0
    medicine_recommendation := codes "Provide at least one symptom"
    diet_recommendation := codes "—"
    foods_to_avoid := codes "—"
    status := "no_symptoms" }

/-- The `error` result returned when `self.model is None`. -/
def rfErrorResult : RFResult :=
  { predicted_disease := codes "Unknown"
    confidence := 0
    medicine_recommendation := codes "Model not ready"
    diet_recommendation := codes "—"
    foods_to_avoid := codes "—"
    status := "error" }

/-- The `unrecognized` result of the RF engine. -/
def rfUnrecognizedResult : RFResult :=
  { predicted_disease := codes "Unknown"
    confidence := 0
    medicine_recommendation := codes "Symptoms not found in dataset vocabulary"
    diet_recommendation := codes "—"
    foods_to_avoid := codes "—"
    status := "unrecognized" }

/-- The `RandomForestDatasetEngine.predict` (pure value; cache effect modelled
separately).  `none` models an uncaught exception escaping `predict`. -/
def rf_predict (e : RFEngine) (symptoms : List (List ℕ)) : Option RFResult :=
  if symptoms = [] then some rfNoSymptomsResult
  else
    match e.model with
    | none => some rfErrorResult
    | some m =>
      let vec := rf_vectorize e symptoms
      if vec.sum = 0 then some rfUnrecognizedResult
      else
        let proba := m.predictProba vec
        let topIdx := argmaxIdx proba
        let topDisease := m.classes.getD topIdx []
        let confidence := pyRound1 (proba.getD topIdx 0 * 100)
        match bestRecommendations e topDisease symptoms with
        | none => none
        | some (med, diet, avoid) =>
          some
            { predicted_disease := topDisease
              confidence := confidence
              medicine_recommendation := med
              diet_recommendation := diet
              foods_to_avoid := avoid
              status := "success" }

/-- The `CustomDiseasePredictionEngine`'s vocabulary interface: the encoded-symptom
dictionary `symptom_to_encoded` (abstract lookup) and the length of
`symptoms_list`. -/
structure CustomEngine where
  numSymptoms : ℕ
  symptomToEncoded : List ℕ → Option ℕ

/-- The `CustomDiseasePredictionEngine._create_feature_vector`: normalize every
input symptom first, then set the bit of each normalized symptom found in
`symptom_to_encoded`. -/
def customCreateFeatureVector (e : CustomEngine) (symptoms : List (List ℕ)) : List ℕ :=
  (symptoms.map customNorm).foldl
    (fun vec s =>
      match e.symptomToEncoded s with
      | some idx => vec.set idx 1
      | none => vec)
    (List.replicate e.numSymptoms 0)

/-! ### The `_normalize_cache` side effect

Both engines memoize `_norm` in a mutable dict keyed by the raw string.
The cache is modelled as an association list in insertion order; the
stateful variants below thread it exactly where the source calls `_norm`. -/

/-- The `self._normalize_cache`. -/
abbrev Cache := List (List ℕ × List ℕ)

/-- The `self._normalize_cache.get(s)` (`s in self._normalize_cache` + lookup). -/
def cacheLookup (c : Cache) (s : List ℕ) : Option (List ℕ) :=
  (c.find? (fun p => p.1 = s)).map (fun p => p.2)

/-- The `_norm` with its cache effect: early return for falsy input (no write),
cache hit (no write), or compute and insert. -/
def normSt (c : Cache) (s : List ℕ) : List ℕ × Cache :=
  if s = [] then ([], c)
  else
    match cacheLookup c s with
    | some v => (v, c)
    | none => (normCore s, c ++ [(s, normCore s)])

/-- The `[self._norm(p) for p in parts]` with the cache threaded left to right. -/
def normListSt (c : Cache) (ss : List (List ℕ)) : List (List ℕ) × Cache :=
  ss.foldl
    (fun (acc : List (List ℕ) × Cache) s =>
      let r := normSt acc.2 s
      (acc.1 ++ [r.1], r.2))
    ([], c)

/-- Overlap-engine state including the mutable `_normalize_cache`. -/
structure OEngineSt where
  rows : List ORow
  availableSymptoms : List (List ℕ)
  minThreshold : ℚ
  cache : Cache
deriving DecidableEq

/-- The cache-free view of a stateful overlap engine. -/
def projO (e : OEngineSt) : OEngine :=
  { rows := e.rows, availableSymptoms := e.availableSymptoms, minThreshold := e.minThreshold }

/-- The `DatasetOverlapPredictionEngine._split_cell` with its cache effect. -/
def o_split_cellSt (c : Cache) (cell : List ℕ) : List (List ℕ) × Cache :=
  if cell = [] then ([], c)
  else
    let r := if cell.contains 44 then normListSt c (splitComma cell) else normListSt c [cell]
    (r.1.filter (fun p => p ≠ []), r.2)

/-- One iteration of `_prepare`'s row loop (overlap engine) with its cache
effect; also returns the row's token list for the `all_symptoms` union. -/
def o_compileRowSt (c : Cache) (idx : ℕ) (r : RawRow) : ORow × List (List ℕ) × Cache :=
  let f :=
    r.cells.foldl
      (fun (acc : List (List ℕ) × Cache) cell =>
        let t := o_split_cellSt acc.2 (strOfCell cell)
        (acc.1 ++ t.1, t.2))
      ([], c)
  ({ disease := r.disease
     symptoms := f.1.toFinset
     medicine := pyStrip (strOfCell r.medicine)
     diet := pyStrip (strOfCell r.diet)
     rowIndex := idx },
   f.1, f.2)

/-- The `DatasetOverlapPredictionEngine.__init__` + `_prepare` with the cache the
construction leaves behind. -/
def o_initSt (raw : List RawRow) (minThreshold : ℚ) : OEngineSt :=
  let f :=
    raw.enum.foldl
      (fun (acc : List ORow × List (List ℕ) × Cache) p =>
        let rc := o_compileRowSt acc.2.2 p.1 p.2
        (acc.1 ++ [rc.1], acc.2.1 ++ rc.2.1, rc.2.2))
      ([], [], [])
  { rows := f.1
    availableSymptoms := sortedUnique f.2.1
    minThreshold := minThreshold
    cache := f.2.2 }

/-- The `DatasetOverlapPredictionEngine.predict` with its cache effect: the only
`_norm` calls are in the `input_norm` set comprehension. -/
def o_predictSt (e : OEngineSt) (symptoms : List (List ℕ)) : OResult × OEngineSt :=
  if symptoms = [] then (oNoSymptomsResult, e)
  else
    let r := normListSt e.cache (symptoms.filter (fun s => s ≠ []))
    let e' := { e with cache := r.2 }
    let inputNorm := r.1.toFinset
    if inputNorm = ∅ then (oUnrecognizedResult, e')
    else (o_finish (e.rows.foldl (stepRow inputNorm) ⟨none, 0⟩) e.minThreshold, e')

/-- The `get_available_symptoms` with its (absent) state effect: it only maps a
pure display transform over `available_symptoms`. -/
def o_getAvailableSymptomsSt (e : OEngineSt) : List (List ℕ) × OEngineSt :=
  (getAvailableSymptoms e.availableSymptoms, e)

/-- RF-engine state including the mutable `_normalize_cache`. -/
structure RFEngineSt where
  rows : List RFRow
  vocab : List (List ℕ)
  model : Option RFModel
  cache : Cache

/-- The cache-free view of a stateful RF engine. -/
def projRF (e : RFEngineSt) : RFEngine :=
  { rows := e.rows, vocab := e.vocab, model := e.model }

/-- The `RandomForestDatasetEngine._vectorize` with its cache effect (`_norm` is
called on every input symptom). -/
def rf_vectorizeSt (c : Cache) (vocab : List (List ℕ)) (symptoms : List (List ℕ)) :
    List ℕ × Cache :=
  symptoms.foldl
    (fun (acc : List ℕ × Cache) s =>
      let r := normSt acc.2 s
      (match symptomIndex vocab r.1 with
       | some idx => acc.1.set idx 1
       | none => acc.1,
       r.2))
    (List.replicate vocab.length 0, c)

/-- The `_best_recommendations` with its cache effect (the `input_norm` set
comprehension re-normalizes the input symptoms). -/
def bestRecommendationsSt (c : Cache) (rows : List RFRow) (disease : List ℕ)
    (inputSymptoms : List (List ℕ)) : Option (List ℕ × List ℕ × List ℕ) × Cache :=
  let rn := normListSt c (inputSymptoms.filter (fun s => s ≠ []))
  let inputNorm := rn.1.toFinset
  let best :=
    rows.foldl
      (fun (acc : Option RFRow × ℤ) r =>
        if r.disease ≠ disease then acc
        else
          let interSize : ℤ := ((inputNorm ∩ r.sset).card : ℤ)
          if interSize > acc.2 then (some r, interSize) else acc)
      (none, -1)
  (match best.1 with
   | some row =>
     some (recField row.medicine (codes "Consult a healthcare provider"),
           recField row.diet (codes "Maintain a balanced diet"),
           recField row.avoid (codes "No specific foods to avoid mentioned"))
   | none => none,
   rn.2)

/-- The `RandomForestDatasetEngine.predict` with its cache effect. -/
def rf_predictSt (e : RFEngineSt) (symptoms : List (List ℕ)) :
    Option RFResult × RFEngineSt :=
  if symptoms = [] then (some rfNoSymptomsResult, e)
  else
    match e.model with
    | none => (some rfErrorResult, e)
    | some m =>
      let v := rf_vectorizeSt e.cache e.vocab symptoms
      if v.1.sum = 0 then (some rfUnrecognizedResult, { e with cache := v.2 })
      else
        let proba := m.predictProba v.1
        let topIdx := argmaxIdx proba
        let topDisease := m.classes.getD topIdx []
        let confidence := pyRound1 (proba.getD topIdx 0 * 100)
        let br := bestRecommendationsSt v.2 e.rows topDisease symptoms
        (match br.1 with
         | none => none
         | some (med, diet, avoid) =>
           some
             { predicted_disease := topDisease
               confidence := confidence
               medicine_recommendation := med
               diet_recommendation := diet
               foods_to_avoid := avoid
               status := "success" },
         { e with cache := br.2 })

/-- A cache state is a pure memo of `_norm`: every entry was written as
`cache[s] = normCore(s)` for a truthy `s`. -/
def cacheOK (c : Cache) : Prop :=
  ∀ p ∈ c, p.1 ≠ [] ∧ p.2 = normCore p.1

instance (c : Cache) : Decidable (cacheOK c) := by
  unfold cacheOK; infer_instance

/-- The `RandomForestDatasetEngine.__init__` + `_prepare` (pure part; `_train` is
replaced by the abstract trained model handed in). -/
def rf_init (raw : List RawRow) (model : Option RFModel) : RFEngine :=
  { rows :=
      raw.map (fun r =>
        { disease := r.disease
          medicine := r.medicine
          diet := r.diet
          avoid := r.avoid
          sset := rf_rowSet r.cells })
    vocab := rf_prepareVocab raw
    model := model }

/-! ### Concrete data for witnesses and counterexamples

The two-disease dataset of the specification's test scenario ("Flu" with
fever/cough/fatigue, "Cold" with cough/sneezing), plus a row with a missing
symptom cell for the NaN behaviour. -/

/-- The "Flu" row: symptoms fever, cough, fatigue. -/
def fluRow : RawRow :=
  { disease := codes "Flu"
    cells := [some (codes "fever"), some (codes "cough"), some (codes "fatigue")]
    medicine := some (codes "Rest and fluids")
    diet := some (codes "Warm soup")
    avoid := some (codes "Cold drinks") }

/-- The "Cold" row: symptoms cough, sneezing. -/
def coldRow : RawRow :=
  { disease := codes "Cold"
    cells := [some (codes "cough"), some (codes "sneezing")]
    medicine := some (codes "Antihistamines")
    diet := none
    avoid := none }

/-- A row with a missing (NaN) symptom cell. -/
def nanRow : RawRow :=
  { disease := codes "Cold"
    cells := [some (codes "cough"), none]
    medicine := none
    diet := none
    avoid := none }

/-- The two-row test dataset. -/
def testRaw : List RawRow := [fluRow, coldRow]

/-- Overlap engine on the test dataset with the default threshold `0.12`. -/
def testO : OEngine := o_init testRaw (12 / 100)

/-- Stateful overlap engine on the test dataset (cache as left by `_prepare`). -/
def testOSt : OEngineSt := o_initSt testRaw (12 / 100)

/-- A concrete stand-in for the trained classifier on the test dataset:
classes in scikit-learn's sorted order with a fixed probability split. -/
def testModel : RFModel :=
  { classes := [codes "Cold", codes "Flu"]
    predictProba := fun _ => [3 / 10, 7 / 10] }

/-- RF engine on the test dataset. -/
def testRF : RFEngine := rf_init testRaw (some testModel)

/-- Stateful RF engine on the test dataset with an empty cache. -/
def testRFSt : RFEngineSt :=
  { rows := testRF.rows, vocab := testRF.vocab, model := testRF.model, cache := [] }

/-- No two adjacent separator characters (analysis predicate for the output of
`collapseSep`). -/
def noAdjSep : List ℕ → Bool
  | c :: c' :: rest => (!(isSep c && isSep c')) && noAdjSep (c' :: rest)
  | _ => true

/-- Map underscores back to spaces (inverse direction of `spaceToUnderscore`
on separator positions; analysis helper). -/
def underscoreToSpace (s : List ℕ) : List ℕ :=
  s.map (fun c => if c = 95 then 32 else c)

/-- Loop invariant of the best-row scan: either nothing has been kept yet and
`best_score` is still `0`, or a row has been kept and `best_score` is the
Jaccard score of some row of `R` against the input. -/
def BestInv (input : Finset (List ℕ)) (R : List ORow) (st : BestSt) : Prop :=
  (st.best = none ∧ st.bestScore = 0) ∨
    (st.best ≠ none ∧ ∃ x ∈ R, st.bestScore = jaccard input x.symptoms)

/-- The literal `low_match` result for a final loop state. -/
def oLowMatchResult (st : BestSt) : OResult :=
  { predicted_disease := codes "Unknown"
    confidence := pyRound1 (st.bestScore * 100)
    medicine_recommendation := codes "Insufficient dataset match. Refine symptoms."
    diet_recommendation := codes "General balanced diet, hydration, rest."
    status := "low_match"
    debugScore := some st.bestScore }

/-- Input with one vocabulary symptom diluted by eight unknown symptoms: every
row's Jaccard score is below the default threshold. -/
def lowInput : List (List ℕ) :=
  [codes "cough", codes "j1", codes "j2", codes "j3", codes "j4",
   codes "j5", codes "j6", codes "j7", codes "j8"]

/-- The concrete result of the RF engine on input `["fever"]` over the test
dataset (used to evaluate the claims at a concrete point). -/
def rfFeverResult : RFResult :=
  (rf_predict testRF [codes "fever"]).getD rfErrorResult

/-! ## Lemmas: character classes and the normalizer -/

theorem lowerChar_idem (c : ℕ) : lowerChar (lowerChar c) = lowerChar c := by
  unfold lowerChar
  split
  · have h : ¬(65 ≤ c + 32 ∧ c + 32 ≤ 90) := by omega
    rw [if_neg h]
  · rfl

theorem isPySpace_of_isSep_ne (c : ℕ) (hs : isSep c = true) (h95 : c ≠ 95) :
    isPySpace c = true := by
  unfold isSep at hs
  simpa [h95] using hs

theorem not_isPySpace_of_not_isSep (c : ℕ) (hs : isSep c = false) :
    isPySpace c = false := by
  unfold isSep at hs
  exact (Bool.or_eq_false_iff.mp hs).2

theorem isSep_of_isPySpace (c : ℕ) (h : isPySpace c = true) : isSep c = true := by
  unfold isSep
  simp [h]

theorem lowerChar_fix_of_mem_map (c : ℕ) (l : List ℕ) (h : c ∈ l.map lowerChar) :
    lowerChar c = c := by
  rcases List.mem_map.mp h with ⟨x, _, rfl⟩
  exact lowerChar_idem x

theorem isSep_spaceToUnderscore_char (c : ℕ) :
    isSep (if c = 32 then 95 else c) = isSep c := by
  by_cases h : c = 32 <;> simp [h, isSep, isPySpace]

theorem mem_collapseGo (b : Bool) (v : List ℕ) (c : ℕ) (h : c ∈ collapseGo b v) :
    c = 32 ∨ (c ∈ v ∧ isSep c = false) := by
  induction v generalizing b with
  | nil => simp [collapseGo] at h
  | cons x xs ih =>
    by_cases hx : isSep x
    · cases b with
      | true =>
        simp only [collapseGo, hx, if_pos, if_true] at h
        rcases ih true h with h' | ⟨hm, hs⟩
        · exact Or.inl h'
        · exact Or.inr ⟨List.mem_cons_of_mem x hm, hs⟩
      | false =>
        simp only [collapseGo, hx, if_pos, if_false] at h
        rcases List.mem_cons.mp h with rfl | h'
        · exact Or.inl rfl
        · rcases ih true h' with h'' | ⟨hm, hs⟩
          · exact Or.inl h''
          · exact Or.inr ⟨List.mem_cons_of_mem x hm, hs⟩
    · simp only [collapseGo, hx, if_neg, Bool.false_eq_true, if_false] at h
      rcases List.mem_cons.mp h with rfl | h'
      · exact Or.inr ⟨List.mem_cons_self c xs, by simpa using hx⟩
      · rcases ih false h' with h'' | ⟨hm, hs⟩
        · exact Or.inl h''
        · exact Or.inr ⟨List.mem_cons_of_mem x hm, hs⟩

theorem collapseGo_true_head (v : List ℕ) :
    collapseGo true v = [] ∨
      ∃ c cs, collapseGo true v = c :: cs ∧ isSep c = false := by
  induction v with
  | nil => exact Or.inl rfl
  | cons x xs ih =>
    by_cases hx : isSep x
    · simpa [collapseGo, hx] using ih
    · exact Or.inr ⟨x, collapseGo false xs, by simp [collapseGo, hx], by simpa using hx⟩

theorem noAdjSep_tail (a : ℕ) (l : List ℕ) (h : noAdjSep (a :: l) = true) :
    noAdjSep l = true := by
  cases l with
  | nil => rfl
  | cons b bs =>
    simp only [noAdjSep, Bool.and_eq_true] at h
    exact h.2

theorem noAdjSep_cons_cons (a b : ℕ) (l : List ℕ)
    (h : noAdjSep (a :: b :: l) = true) : isSep a = false ∨ isSep b = false := by
  simp only [noAdjSep, Bool.and_eq_true, Bool.not_eq_true', Bool.and_eq_false_iff] at h
  exact h.1

theorem noAdjSep_cons_of_not_sep (a : ℕ) (l : List ℕ) (ha : isSep a = false)
    (h : noAdjSep l = true) : noAdjSep (a :: l) = true := by
  cases l with
  | nil => rfl
  | cons b bs => simp [noAdjSep, ha, h]

theorem noAdjSep_collapseGo (b : Bool) (v : List ℕ) :
    noAdjSep (collapseGo b v) = true := by
  induction v generalizing b with
  | nil => rfl
  | cons x xs ih =>
    by_cases hx : isSep x
    · cases b with
      | true => simpa [collapseGo, hx] using ih true
      | false =>
        simp only [collapseGo, hx, if_pos, if_false]
        rcases collapseGo_true_head xs with he | ⟨c, cs, heq, hcs⟩
        · rw [he]; rfl
        · rw [heq]
          have : noAdjSep (c :: cs) = true := by rw [← heq]; exact ih true
          simp [noAdjSep, hcs, this]
    · have hx' : isSep x = false := by simpa using hx
      simp only [collapseGo, hx', Bool.false_eq_true, if_false]
      exact noAdjSep_cons_of_not_sep x _ hx' (ih false)

theorem mem_of_mem_dropWhile (p : ℕ → Bool) (l : List ℕ) (c : ℕ)
    (h : c ∈ l.dropWhile p) : c ∈ l := by
  induction l with
  | nil => simpa [List.dropWhile] using h
  | cons a as ih =>
    by_cases ha : p a
    · simp only [List.dropWhile_cons, ha, if_pos] at h
      exact List.mem_cons_of_mem a (ih h)
    · simpa [List.dropWhile_cons, ha] using h

theorem mem_of_mem_dropTrailing (p : ℕ → Bool) (l : List ℕ) (c : ℕ)
    (h : c ∈ dropTrailing p l) : c ∈ l := by
  induction l with
  | nil => simpa [dropTrailing] using h
  | cons a as ih =>
    simp only [dropTrailing] at h
    split at h
    · simp at h
    · rcases List.mem_cons.mp h with rfl | h'
      · exact List.mem_cons_self c as
      · exact List.mem_cons_of_mem a (ih h')

theorem mem_of_mem_pyStrip (l : List ℕ) (c : ℕ) (h : c ∈ pyStrip l) : c ∈ l :=
  mem_of_mem_dropWhile isPySpace l c
    (mem_of_mem_dropTrailing isPySpace (l.dropWhile isPySpace) c h)

theorem noAdjSep_dropWhile (p : ℕ → Bool) (l : List ℕ) (h : noAdjSep l = true) :
    noAdjSep (l.dropWhile p) = true := by
  induction l with
  | nil => exact h
  | cons a as ih =>
    by_cases ha : p a
    · simp only [List.dropWhile_cons, ha, if_pos]
      exact ih (noAdjSep_tail a as h)
    · simpa [List.dropWhile_cons, ha] using h

theorem dropTrailing_head (p : ℕ → Bool) (l : List ℕ) :
    dropTrailing p l = [] ∨
      ∃ c cs cs', l = c :: cs ∧ dropTrailing p l = c :: cs' := by
  cases l with
  | nil => exact Or.inl rfl
  | cons a as =>
    simp only [dropTrailing]
    split
    · exact Or.inl rfl
    · exact Or.inr ⟨a, as, dropTrailing p as, rfl, rfl⟩

theorem noAdjSep_dropTrailing (p : ℕ → Bool) (l : List ℕ) (h : noAdjSep l = true) :
    noAdjSep (dropTrailing p l) = true := by
  induction l with
  | nil => exact h
  | cons a as ih =>
    simp only [dropTrailing]
    split
    · rfl
    · have has : noAdjSep (dropTrailing p as) = true := ih (noAdjSep_tail a as h)
      rcases dropTrailing_head p as with he | ⟨c, cs, cs', hl, heq⟩
      · rw [he]; rfl
      · rw [heq] at has ⊢
        have hpair : isSep a = false ∨ isSep c = false := by
          rw [hl] at h
          exact noAdjSep_cons_cons a c cs h
        cases hpair with
        | inl hp => simp [noAdjSep, has, hp]
        | inr hp => simp [noAdjSep, has, hp]

theorem noAdjSep_pyStrip (l : List ℕ) (h : noAdjSep l = true) :
    noAdjSep (pyStrip l) = true :=
  noAdjSep_dropTrailing isPySpace _ (noAdjSep_dropWhile isPySpace l h)

theorem dropWhile_head_not (p : ℕ → Bool) (l : List ℕ) (c : ℕ) (cs : List ℕ)
    (h : l.dropWhile p = c :: cs) : p c = false := by
  induction l with
  | nil => simp [List.dropWhile] at h
  | cons a as ih =>
    by_cases ha : p a
    · exact ih (by simpa [List.dropWhile_cons, ha] using h)
    · rw [List.dropWhile_cons, if_neg (by simpa using ha)] at h
      cases h
      simpa using ha

theorem dropTrailing_getLast_not (p : ℕ → Bool) (l : List ℕ) (c : ℕ)
    (h : (dropTrailing p l).getLast? = some c) : p c = false := by
  induction l with
  | nil => simp [dropTrailing] at h
  | cons a as ih =>
    simp only [dropTrailing] at h
    split at h
    · simp at h
    · rename_i hcond
      rcases dropTrailing_head p as with he | ⟨x, xs, xs', hl, heq⟩
      · rw [he] at h hcond
        simp only [List.getLast?_singleton, Option.some.injEq] at h
        subst h
        simpa using hcond
      · rw [heq] at h
        rw [List.getLast?_cons_cons] at h
        rw [heq] at ih
        exact ih h

theorem dropWhile_eq_self_of_all (p : ℕ → Bool) (l : List ℕ)
    (h : ∀ c ∈ l, p c = false) : l.dropWhile p = l := by
  cases l with
  | nil => rfl
  | cons a as =>
    rw [List.dropWhile_cons, if_neg]
    simp [h a (List.mem_cons_self a as)]

theorem dropTrailing_eq_self_of_getLast (p : ℕ → Bool) (l : List ℕ)
    (h : ∀ c, l.getLast? = some c → p c = false) : dropTrailing p l = l := by
  induction l with
  | nil => rfl
  | cons a as ih =>
    simp only [dropTrailing]
    cases as with
    | nil =>
      have := h a (by simp)
      simp [dropTrailing, this]
    | cons b bs =>
      have ht : dropTrailing p (b :: bs) = b :: bs := by
        apply ih
        intro c hc
        exact h c (by rwa [List.getLast?_cons_cons])
      rw [ht]
      simp

theorem mem_of_getLast?_eq (l : List ℕ) (a : ℕ) (h : l.getLast? = some a) : a ∈ l := by
  induction l with
  | nil => simp at h
  | cons x xs ih =>
    cases xs with
    | nil =>
      simp only [List.getLast?_singleton, Option.some.injEq] at h
      simp [h]
    | cons y ys =>
      rw [List.getLast?_cons_cons] at h
      exact List.mem_cons_of_mem x (ih h)

theorem pyStrip_eq_self (l : List ℕ)
    (hhead : ∀ c cs, l = c :: cs → isPySpace c = false)
    (hlast : ∀ c, l.getLast? = some c → isPySpace c = false) :
    pyStrip l = l := by
  unfold pyStrip
  have hdw : l.dropWhile isPySpace = l := by
    cases l with
    | nil => rfl
    | cons c cs =>
      rw [List.dropWhile_cons, if_neg]
      simp [hhead c cs rfl]
  rw [hdw]
  exact dropTrailing_eq_self_of_getLast isPySpace l hlast

theorem collapseGo_isolated (t : List ℕ)
    (hsep : ∀ c ∈ t, isSep c = true → c = 95) (hadj : noAdjSep t = true) :
    collapseGo false t = underscoreToSpace t ∧
      ((∀ c cs, t = c :: cs → isSep c = false) →
        collapseGo true t = underscoreToSpace t) := by
  induction t with
  | nil => exact ⟨rfl, fun _ => rfl⟩
  | cons x xs ih =>
    have hsep' : ∀ c ∈ xs, isSep c = true → c = 95 :=
      fun c hc => hsep c (List.mem_cons_of_mem x hc)
    have hadj' : noAdjSep xs = true := noAdjSep_tail x xs hadj
    by_cases hx : isSep x = true
    · have hx95 : x = 95 := hsep x (List.mem_cons_self x xs) hx
      subst hx95
      have htrue : collapseGo true xs = underscoreToSpace xs := by
        apply (ih hsep' hadj').2
        intro c cs hcs
        subst hcs
        rcases noAdjSep_cons_cons 95 c cs hadj with h95 | hc
        · simp [isSep, isPySpace] at h95
        · exact hc
      constructor
      · simp only [collapseGo, hx, if_pos, if_false, underscoreToSpace, List.map_cons]
        rw [htrue]
        rfl
      · intro hhead
        have := hhead 95 xs rfl
        rw [hx] at this
        simp at this
    · have hx' : isSep x = false := by simpa using hx
      have hne95 : x ≠ 95 := by
        intro h95
        rw [h95] at hx'
        simp [isSep, isPySpace] at hx'
      have hfalse : collapseGo false xs = underscoreToSpace xs := (ih hsep' hadj').1
      have hcons :  x :: collapseGo false xs = underscoreToSpace (x :: xs) := by
        simp only [underscoreToSpace, List.map_cons, hne95, if_neg]
        rw [hfalse]
        rfl
      refine ⟨?_, fun _ => ?_⟩
      · simp only [collapseGo, hx', Bool.false_eq_true, if_false]
        exact hcons
      · simp only [collapseGo, hx', Bool.false_eq_true, if_false]
        exact hcons

theorem noAdjSep_spaceToUnderscore (l : List ℕ) (h : noAdjSep l = true) :
    noAdjSep (spaceToUnderscore l) = true := by
  induction l with
  | nil => rfl
  | cons a as ih =>
    have tail := ih (noAdjSep_tail a as h)
    cases as with
    | nil => rfl
    | cons b bs =>
      have hpair := noAdjSep_cons_cons a b bs h
      simp only [spaceToUnderscore, List.map_cons] at tail ⊢
      show (!(isSep (if a = 32 then 95 else a) && isSep (if b = 32 then 95 else b))
        && noAdjSep ((if b = 32 then 95 else b) :: bs.map (fun c => if c = 32 then 95 else c)))
        = true
      rw [isSep_spaceToUnderscore_char a, isSep_spaceToUnderscore_char b]
      cases hpair with
      | inl hp => simp [hp, tail]
      | inr hp => simp [hp, tail]

theorem normCore_chars (s : List ℕ) (c : ℕ) (hc : c ∈ normCore s) :
    isPySpace c = false ∧ lowerChar c = c ∧ (isSep c = true → c = 95) := by
  unfold normCore spaceToUnderscore at hc
  rcases List.mem_map.mp hc with ⟨c₀, hc₀, rfl⟩
  have hcw : c₀ ∈ collapseGo false ((pyStrip s).map lowerChar) :=
    mem_of_mem_pyStrip _ c₀ hc₀
  rcases mem_collapseGo false _ c₀ hcw with rfl | ⟨hmem, hns⟩
  · refine ⟨by decide, by decide, by decide⟩
  · have hne32 : c₀ ≠ 32 := by
      intro h32
      rw [h32] at hns
      simp [isSep, isPySpace] at hns
    rw [if_neg hne32]
    refine ⟨not_isPySpace_of_not_isSep c₀ hns, lowerChar_fix_of_mem_map c₀ _ hmem, ?_⟩
    intro habs
    rw [habs] at hns
    simp at hns

theorem normCore_noAdj (s : List ℕ) : noAdjSep (normCore s) = true :=
  noAdjSep_spaceToUnderscore _ (noAdjSep_pyStrip _ (noAdjSep_collapseGo false _))

theorem collapseSep_chars (v : List ℕ) (d : ℕ) (hd : d ∈ collapseSep v) :
    d = 32 ∨ isSep d = false := by
  rcases mem_collapseGo false v d hd with h | ⟨_, hns⟩
  · exact Or.inl h
  · exact Or.inr hns

theorem strip_head_class (w : List ℕ) (c : ℕ) (cs : List ℕ)
    (hchars : ∀ d ∈ w, d = 32 ∨ isSep d = false)
    (h : spaceToUnderscore (pyStrip w) = c :: cs) : isSep c = false := by
  rcases List.map_eq_cons_iff.mp h with ⟨c₀, cs₀, hu, hc, -⟩
  have hps : isPySpace c₀ = false := by
    unfold pyStrip at hu
    rcases dropTrailing_head isPySpace (w.dropWhile isPySpace) with
      he | ⟨d, ds, ds', hdw, heq⟩
    · rw [he] at hu
      simp at hu
    · rw [heq] at hu
      cases hu
      exact dropWhile_head_not isPySpace w c₀ ds hdw
  have hmem : c₀ ∈ w := mem_of_mem_pyStrip w c₀ (by rw [hu]; exact List.mem_cons_self c₀ cs₀)
  rcases hchars c₀ hmem with rfl | hns
  · simp [isPySpace] at hps
  · have hne32 : c₀ ≠ 32 := by
      intro h32
      rw [h32] at hps
      simp [isPySpace] at hps
    rw [← hc, if_neg hne32]
    exact hns

theorem strip_last_class (w : List ℕ) (c : ℕ)
    (hchars : ∀ d ∈ w, d = 32 ∨ isSep d = false)
    (h : (spaceToUnderscore (pyStrip w)).getLast? = some c) : isSep c = false := by
  unfold spaceToUnderscore at h
  rw [List.getLast?_map] at h
  rcases Option.map_eq_some'.mp h with ⟨c₀, hlast, hc⟩
  have hps : isPySpace c₀ = false :=
    dropTrailing_getLast_not isPySpace (w.dropWhile isPySpace) c₀ hlast
  have hmem : c₀ ∈ w := mem_of_mem_pyStrip w c₀ (mem_of_getLast?_eq _ c₀ hlast)
  rcases hchars c₀ hmem with rfl | hns
  · simp [isPySpace] at hps
  · have hne32 : c₀ ≠ 32 := by
      intro h32
      rw [h32] at hps
      simp [isPySpace] at hps
    rw [← hc, if_neg hne32]
    exact hns

theorem normCore_head_not_sep (s : List ℕ) (c : ℕ) (cs : List ℕ)
    (h : normCore s = c :: cs) : isSep c = false :=
  strip_head_class _ c cs (collapseSep_chars _) h

theorem normCore_getLast_not_sep (s : List ℕ) (c : ℕ)
    (h : (normCore s).getLast? = some c) : isSep c = false :=
  strip_last_class _ c (collapseSep_chars _) h

theorem normCore_normCore (s : List ℕ) : normCore (normCore s) = normCore s := by
  have hchars := normCore_chars s
  have h1 : pyStrip (normCore s) = normCore s := by
    apply pyStrip_eq_self
    · intro c cs hc
      have hm : c ∈ normCore s := by rw [hc]; exact List.mem_cons_self c cs
      exact (hchars c hm).1
    · intro c hc
      exact (hchars c (mem_of_getLast?_eq _ c hc)).1
  have h2 : (normCore s).map lowerChar = normCore s := by
    rw [List.map_congr_left (g := id) (fun a ha => (hchars a ha).2.1), List.map_id]
  have h3 : collapseSep (normCore s) = underscoreToSpace (normCore s) := by
    unfold collapseSep
    exact (collapseGo_isolated (normCore s)
      (fun c hc hs => (hchars c hc).2.2 hs) (normCore_noAdj s)).1
  have h4 : pyStrip (underscoreToSpace (normCore s)) = underscoreToSpace (normCore s) := by
    apply pyStrip_eq_self
    · intro c cs hc
      rcases List.map_eq_cons_iff.mp hc with ⟨c₀, cs₀, hteq, hcc, -⟩
      have hns : isSep c₀ = false := normCore_head_not_sep s c₀ cs₀ hteq
      have hne95 : c₀ ≠ 95 := by
        intro h95
        rw [h95] at hns
        simp [isSep, isPySpace] at hns
      rw [← hcc, if_neg hne95]
      exact not_isPySpace_of_not_isSep c₀ hns
    · intro c hc
      unfold underscoreToSpace at hc
      rw [List.getLast?_map] at hc
      rcases Option.map_eq_some'.mp hc with ⟨c₀, hlast, hcc⟩
      have hns : isSep c₀ = false := normCore_getLast_not_sep s c₀ hlast
      have hne95 : c₀ ≠ 95 := by
        intro h95
        rw [h95] at hns
        simp [isSep, isPySpace] at hns
      rw [← hcc, if_neg hne95]
      exact not_isPySpace_of_not_isSep c₀ hns
  have h5 : spaceToUnderscore (underscoreToSpace (normCore s)) = normCore s := by
    unfold spaceToUnderscore underscoreToSpace
    rw [List.map_map]
    have hid : ∀ a ∈ normCore s,
        ((fun c => if c = 32 then 95 else c) ∘ fun c => if c = 95 then 32 else c) a = id a := by
      intro a ha
      rcases hchars a ha with ⟨hps, -, -⟩
      by_cases h95 : a = 95
      · subst h95
        simp
      · have hne32 : a ≠ 32 := by
          intro h32
          rw [h32] at hps
          simp [isPySpace] at hps
        simp [h95, hne32]
    rw [List.map_congr_left hid, List.map_id]
  calc normCore (normCore s)
      = spaceToUnderscore (pyStrip (collapseSep ((pyStrip (normCore s)).map lowerChar))) := rfl
    _ = spaceToUnderscore (pyStrip (collapseSep ((normCore s).map lowerChar))) := by rw [h1]
    _ = spaceToUnderscore (pyStrip (collapseSep (normCore s))) := by rw [h2]
    _ = spaceToUnderscore (pyStrip (underscoreToSpace (normCore s))) := by rw [h3]
    _ = spaceToUnderscore (underscoreToSpace (normCore s)) := by rw [h4]
    _ = normCore s := h5

/-! ## Lemmas: vocabulary and index -/

theorem symptomIndex_some (vocab : List (List ℕ)) (s : List ℕ) (j : ℕ)
    (h : symptomIndex vocab s = some j) : j < vocab.length ∧ vocab.getD j [] = s := by
  induction vocab generalizing j with
  | nil => simp [symptomIndex] at h
  | cons t ts ih =>
    by_cases ht : t = s
    · rw [symptomIndex, if_pos ht] at h
      cases h
      exact ⟨Nat.succ_pos _, ht⟩
    · rw [symptomIndex, if_neg ht] at h
      rcases Option.map_eq_some'.mp h with ⟨j', hj', rfl⟩
      rcases ih j' hj' with ⟨hlt, hget⟩
      exact ⟨Nat.succ_lt_succ hlt, hget⟩

theorem symptomIndex_getD (vocab : List (List ℕ)) (hnd : vocab.Nodup) (i : ℕ)
    (hi : i < vocab.length) : symptomIndex vocab (vocab.getD i []) = some i := by
  induction vocab generalizing i with
  | nil => simp at hi
  | cons t ts ih =>
    cases i with
    | zero => simp [symptomIndex]
    | succ i' =>
      have hi' : i' < ts.length := Nat.lt_of_succ_lt_succ hi
      have hmem : ts.getD i' [] ∈ ts := by
        rw [List.getD_eq_getElem ts [] hi']
        exact List.getElem_mem hi'
      have hne : t ≠ ts.getD i' [] := by
        intro he
        exact (List.nodup_cons.mp hnd).1 (he ▸ hmem)
      have hgd : (t :: ts).getD (i' + 1) [] = ts.getD i' [] := by
        simp [List.getD]
      rw [hgd, symptomIndex, if_neg hne, ih (List.nodup_cons.mp hnd).2 i' hi']
      rfl

theorem symptomIndex_eq_none (vocab : List (List ℕ)) (s : List ℕ)
    (h : s ∉ vocab) : symptomIndex vocab s = none := by
  induction vocab with
  | nil => rfl
  | cons t ts ih =>
    have hne : t ≠ s := fun he => h (he ▸ List.mem_cons_self t ts)
    rw [symptomIndex, if_neg hne, ih (fun hm => h (List.mem_cons_of_mem t hm))]
    rfl

theorem sortedUnique_sorted (l : List (List ℕ)) :
    List.Sorted (· ≤ ·) (sortedUnique l) := by
  unfold sortedUnique
  exact List.sorted_insertionSort _ _

theorem sortedUnique_nodup (l : List (List ℕ)) : (sortedUnique l).Nodup := by
  unfold sortedUnique
  exact ((List.perm_insertionSort _ _).symm).nodup (List.nodup_dedup l)

theorem mem_sortedUnique (l : List (List ℕ)) (t : List ℕ) :
    t ∈ sortedUnique l ↔ t ∈ l := by
  unfold sortedUnique
  rw [List.Perm.mem_iff (List.perm_insertionSort _ _), List.mem_dedup]

theorem o_split_cell_mem (cell t : List ℕ) (h : t ∈ o_split_cell cell) :
    t ≠ [] ∧ ∃ p, t = norm p := by
  unfold o_split_cell at h
  split at h
  · simp at h
  · rw [List.mem_filter] at h
    refine ⟨by simpa using h.2, ?_⟩
    rcases h with ⟨hm, -⟩
    split at hm
    · rcases List.mem_map.mp hm with ⟨p, -, rfl⟩
      exact ⟨p, rfl⟩
    · rcases List.mem_singleton.mp hm with rfl
      exact ⟨cell, rfl⟩

theorem rf_split_cell_mem (cell : Option (List ℕ)) (t : List ℕ)
    (h : t ∈ rf_split_cell cell) : ∃ p, t = norm p := by
  unfold rf_split_cell at h
  match cell with
  | none => simp at h
  | some s =>
    simp only at h
    split at h
    · simp at h
    · rcases List.mem_map.mp h with ⟨p, -, rfl⟩
      exact ⟨p, rfl⟩

theorem mem_o_prepareVocab (raw : List RawRow) (t : List ℕ) :
    t ∈ o_prepareVocab raw ↔
      ∃ r ∈ raw, ∃ c ∈ r.cells, t ∈ o_split_cell (strOfCell c) := by
  unfold o_prepareVocab o_allTokens
  rw [mem_sortedUnique]
  simp only [List.mem_flatten, List.mem_map]
  constructor
  · rintro ⟨l, ⟨r, hr, rfl⟩, ht⟩
    rcases List.mem_flatten.mp ht with ⟨l'', hl'', ht''⟩
    rcases List.mem_map.mp hl'' with ⟨c, hc, rfl⟩
    exact ⟨r, hr, c, hc, ht''⟩
  · rintro ⟨r, hr, c, hc, ht⟩
    refine ⟨(r.cells.map (fun c => o_split_cell (strOfCell c))).flatten, ⟨r, hr, rfl⟩, ?_⟩
    exact List.mem_flatten.mpr ⟨o_split_cell (strOfCell c), List.mem_map.mpr ⟨c, hc, rfl⟩, ht⟩

theorem mem_rf_prepareVocab (raw : List RawRow) (t : List ℕ) :
    t ∈ rf_prepareVocab raw ↔
      t ≠ [] ∧ ∃ r ∈ raw, ∃ c ∈ r.cells, t ∈ rf_split_cell c := by
  unfold rf_prepareVocab rf_allTokens
  rw [mem_sortedUnique]
  simp only [List.mem_flatten, List.mem_map]
  constructor
  · rintro ⟨l, ⟨r, hr, rfl⟩, ht⟩
    rcases List.mem_filter.mp ht with ⟨ht', hne⟩
    rcases List.mem_flatten.mp ht' with ⟨l'', hl'', ht''⟩
    rcases List.mem_map.mp hl'' with ⟨c, hc, rfl⟩
    exact ⟨by simpa using hne, r, hr, c, hc, ht''⟩
  · rintro ⟨hne, r, hr, c, hc, ht⟩
    refine ⟨((r.cells.map rf_split_cell).flatten).filter (fun p => p ≠ []),
      ⟨r, hr, rfl⟩, ?_⟩
    refine List.mem_filter.mpr ⟨?_, by simpa using hne⟩
    exact List.mem_flatten.mpr ⟨rf_split_cell c, List.mem_map.mpr ⟨c, hc, rfl⟩, ht⟩

/-! ## Lemmas: feature vectors -/

theorem bitFold_getElem? (f : List ℕ → Option ℕ) (l : List (List ℕ)) (vec : List ℕ)
    (j : ℕ) :
    (l.foldl (fun v s => match f s with | some i => v.set i 1 | none => v) vec)[j]? =
      if (∃ s ∈ l, f s = some j) ∧ j < vec.length then some 1 else vec[j]? := by
  induction l generalizing vec with
  | nil => simp
  | cons s l ih =>
    rw [List.foldl_cons]
    cases hf : f s with
    | none =>
      simp only [hf]
      rw [ih vec]
      congr 1
      simp only [List.mem_cons, eq_iff_iff]
      constructor
      · rintro ⟨⟨x, hx, hfx⟩, hj⟩
        exact ⟨⟨x, Or.inr hx, hfx⟩, hj⟩
      · rintro ⟨⟨x, hx, hfx⟩, hj⟩
        rcases hx with rfl | hx
        · rw [hf] at hfx
          cases hfx
        · exact ⟨⟨x, hx, hfx⟩, hj⟩
    | some i =>
      simp only [hf]
      rw [ih (vec.set i 1)]
      rw [List.length_set]
      by_cases hij : i = j
      · subst hij
        by_cases hlen : i < vec.length
        · have hset : (vec.set i 1)[i]? = some 1 := by
            rw [List.getElem?_set]
            simp [hlen]
          rw [if_pos (⟨⟨s, List.mem_cons_self s l, hf⟩, hlen⟩ :
            (∃ x ∈ s :: l, f x = some i) ∧ i < vec.length)]
          by_cases hex : ∃ x ∈ l, f x = some i
          · rw [if_pos ⟨hex, hlen⟩]
          · rw [if_neg (fun hc => hex hc.1), hset]
        · have hset : (vec.set i 1)[i]? = vec[i]? := by
            rw [List.getElem?_set, if_pos rfl, if_neg hlen,
              List.getElem?_eq_none (Nat.le_of_not_lt hlen)]
          rw [if_neg (fun hc => hlen hc.2), hset, if_neg (fun hc => hlen hc.2)]
      · have hset : (vec.set i 1)[j]? = vec[j]? := by
          rw [List.getElem?_set]
          simp [hij]
        rw [hset]
        congr 1
        simp only [List.mem_cons, eq_iff_iff]
        constructor
        · rintro ⟨⟨x, hx, hfx⟩, hj⟩
          exact ⟨⟨x, Or.inr hx, hfx⟩, hj⟩
        · rintro ⟨⟨x, hx, hfx⟩, hj⟩
          rcases hx with rfl | hx
          · rw [hf] at hfx
            cases hfx
            exact absurd rfl hij
          · exact ⟨⟨x, hx, hfx⟩, hj⟩

theorem rf_vectorize_getElem? (e : RFEngine) (l : List (List ℕ)) (j : ℕ) :
    (rf_vectorize e l)[j]? =
      if (∃ s ∈ l, symptomIndex e.vocab (norm s) = some j) ∧ j < e.vocab.length then
        some 1
      else (List.replicate e.vocab.length (0 : ℕ))[j]? := by
  have h := bitFold_getElem? (fun s => symptomIndex e.vocab (norm s)) l
    (List.replicate e.vocab.length 0) j
  simpa [rf_vectorize] using h

theorem rf_vectorize_eq_of_normSet (e : RFEngine) (l l' : List (List ℕ))
    (h : (l.map norm).toFinset = (l'.map norm).toFinset) :
    rf_vectorize e l = rf_vectorize e l' := by
  apply List.ext_getElem?
  intro j
  rw [rf_vectorize_getElem?, rf_vectorize_getElem?]
  have hiff : (∃ s ∈ l, symptomIndex e.vocab (norm s) = some j) ↔
      (∃ s ∈ l', symptomIndex e.vocab (norm s) = some j) := by
    constructor
    · rintro ⟨s, hs, hfs⟩
      have : norm s ∈ (l'.map norm).toFinset := by
        rw [← h]
        simp only [List.mem_toFinset, List.mem_map]
        exact ⟨s, hs, rfl⟩
      rcases List.mem_map.mp (List.mem_toFinset.mp this) with ⟨s', hs', heq⟩
      exact ⟨s', hs', heq ▸ hfs⟩
    · rintro ⟨s, hs, hfs⟩
      have : norm s ∈ (l.map norm).toFinset := by
        rw [h]
        simp only [List.mem_toFinset, List.mem_map]
        exact ⟨s, hs, rfl⟩
      rcases List.mem_map.mp (List.mem_toFinset.mp this) with ⟨s', hs', heq⟩
      exact ⟨s', hs', heq ▸ hfs⟩
  simp only [hiff]

theorem customVector_getElem? (e : CustomEngine) (l : List (List ℕ)) (j : ℕ) :
    (customCreateFeatureVector e l)[j]? =
      if (∃ s ∈ l, e.symptomToEncoded (customNorm s) = some j) ∧ j < e.numSymptoms then
        some 1
      else (List.replicate e.numSymptoms (0 : ℕ))[j]? := by
  have h := bitFold_getElem? (fun s => e.symptomToEncoded (customNorm s)) l
    (List.replicate e.numSymptoms 0) j
  unfold customCreateFeatureVector
  rw [List.foldl_map]
  simpa using h

theorem customVector_eq_of_normSet (e : CustomEngine) (l l' : List (List ℕ))
    (h : (l.map customNorm).toFinset = (l'.map customNorm).toFinset) :
    customCreateFeatureVector e l = customCreateFeatureVector e l' := by
  apply List.ext_getElem?
  intro j
  rw [customVector_getElem?, customVector_getElem?]
  have hiff : (∃ s ∈ l, e.symptomToEncoded (customNorm s) = some j) ↔
      (∃ s ∈ l', e.symptomToEncoded (customNorm s) = some j) := by
    constructor
    · rintro ⟨s, hs, hfs⟩
      have : customNorm s ∈ (l'.map customNorm).toFinset := by
        rw [← h]
        simp only [List.mem_toFinset, List.mem_map]
        exact ⟨s, hs, rfl⟩
      rcases List.mem_map.mp (List.mem_toFinset.mp this) with ⟨s', hs', heq⟩
      exact ⟨s', hs', heq ▸ hfs⟩
    · rintro ⟨s, hs, hfs⟩
      have : customNorm s ∈ (l.map customNorm).toFinset := by
        rw [h]
        simp only [List.mem_toFinset, List.mem_map]
        exact ⟨s, hs, rfl⟩
      rcases List.mem_map.mp (List.mem_toFinset.mp this) with ⟨s', hs', heq⟩
      exact ⟨s', hs', heq ▸ hfs⟩
  simp only [hiff]

/-! ## Lemmas: scoring -/

theorem jaccard_nonneg (a b : Finset (List ℕ)) : 0 ≤ jaccard a b := by
  unfold jaccard
  positivity

theorem jaccard_le_one (a b : Finset (List ℕ)) : jaccard a b ≤ 1 := by
  unfold jaccard
  rcases Nat.eq_zero_or_pos (a ∪ b).card with h | h
  · rw [h]
    norm_num
  · rw [div_le_one (by exact_mod_cast h)]
    exact_mod_cast Finset.card_le_card (Finset.inter_subset_union)

theorem jaccard_self (a : Finset (List ℕ)) (h : a ≠ ∅) : jaccard a a = 1 := by
  unfold jaccard
  rw [Finset.inter_self, Finset.union_self]
  have hc : (a.card : ℚ) ≠ 0 := by
    exact_mod_cast Finset.card_ne_zero_of_mem (Finset.nonempty_iff_ne_empty.mpr h).choose_spec
  exact div_self hc

theorem stepRow_inv (input : Finset (List ℕ)) (R : List ORow) (st : BestSt)
    (r : ORow) (h : BestInv input R st) (hr : r ∈ R) :
    BestInv input R (stepRow input st r) := by
  unfold stepRow
  by_cases hi : input ∩ r.symptoms = ∅
  · rw [if_pos hi]
    exact h
  · rw [if_neg hi]
    by_cases hgt :
        ((input ∩ r.symptoms).card : ℚ) / ((input ∪ r.symptoms).card : ℚ) > st.bestScore
    · rw [if_pos hgt]
      exact Or.inr ⟨by simp, r, hr, rfl⟩
    · rw [if_neg hgt]
      by_cases heps :
          |((input ∩ r.symptoms).card : ℚ) / ((input ∪ r.symptoms).card : ℚ) - st.bestScore| <
            1 / 1000000000
      · rw [if_pos heps]
        rcases hb : st.best with - | b
        · simp only [hb]
          exact h
        · simp only [hb]
          rcases h with ⟨hn, -⟩ | ⟨-, hx⟩
          · rw [hb] at hn
            cases hn
          · by_cases hcard : b.2.1.card < (input ∩ r.symptoms).card
            · rw [if_pos hcard]
              exact Or.inr ⟨by simp, hx⟩
            · rw [if_neg hcard]
              exact Or.inr ⟨by rw [hb]; simp, hx⟩
      · rw [if_neg heps]
        exact h

theorem foldl_stepRow_inv (input : Finset (List ℕ)) (R : List ORow)
    (l : List ORow) (hl : ∀ x ∈ l, x ∈ R) (st : BestSt)
    (h : BestInv input R st) :
    BestInv input R (l.foldl (stepRow input) st) := by
  induction l generalizing st with
  | nil => exact h
  | cons a l ih =>
    rw [List.foldl_cons]
    exact ih (fun x hx => hl x (List.mem_cons_of_mem a hx)) _
      (stepRow_inv input R st a h (hl a (List.mem_cons_self a l)))

theorem bestState_inv (e : OEngine) (symptoms : List (List ℕ)) :
    BestInv (oInputNorm symptoms) e.rows (bestState e symptoms) :=
  foldl_stepRow_inv _ e.rows e.rows (fun _ hx => hx) _ (Or.inl ⟨rfl, rfl⟩)

theorem bestScore_nonneg (e : OEngine) (symptoms : List (List ℕ)) :
    0 ≤ (bestState e symptoms).bestScore := by
  rcases bestState_inv e symptoms with ⟨-, h0⟩ | ⟨-, x, -, hx⟩
  · rw [h0]
  · rw [hx]
    exact jaccard_nonneg _ _

theorem bestScore_le_one (e : OEngine) (symptoms : List (List ℕ)) :
    (bestState e symptoms).bestScore ≤ 1 := by
  rcases bestState_inv e symptoms with ⟨-, h0⟩ | ⟨-, x, -, hx⟩
  · rw [h0]
    norm_num
  · rw [hx]
    exact jaccard_le_one _ _

/-! ## Lemmas: Python rounding -/

theorem pyRoundInt_nonneg (x : ℚ) (hx : 0 ≤ x) : 0 ≤ pyRoundInt x := by
  unfold pyRoundInt
  have hf : (0 : ℤ) ≤ Int.floor x := Int.floor_nonneg.mpr hx
  split
  · exact hf
  · split
    · omega
    · split <;> omega

theorem pyRoundInt_le (x : ℚ) (B : ℤ) (hx : x ≤ (B : ℚ)) : pyRoundInt x ≤ B := by
  unfold pyRoundInt
  have hf : Int.floor x ≤ B := by
    calc Int.floor x ≤ Int.floor (B : ℚ) := Int.floor_le_floor hx
      _ = B := Int.floor_intCast B
  split
  · exact hf
  · rename_i hlt
    have hgt : (1 : ℚ) / 2 < x - (Int.floor x : ℚ) ∨ x - (Int.floor x : ℚ) = 1 / 2 := by
      rcases lt_trichotomy ((1 : ℚ) / 2) (x - (Int.floor x : ℚ)) with h | h | h
      · exact Or.inl h
      · exact Or.inr h.symm
      · exact absurd h (by simpa using hlt)
    have hstrict : (Int.floor x : ℚ) < (B : ℚ) := by
      rcases hgt with h | h
      · have : (Int.floor x : ℚ) < x - 1 / 2 := by linarith
        linarith
      · have : (Int.floor x : ℚ) = x - 1 / 2 := by linarith
        linarith
    have hfb : Int.floor x < B := by exact_mod_cast hstrict
    split
    · omega
    · split <;> omega

theorem pyRound1_bounds (x : ℚ) (h0 : 0 ≤ x) (h1 : x ≤ 1) :
    0 ≤ pyRound1 (x * 100) ∧ pyRound1 (x * 100) ≤ 100 := by
  unfold pyRound1
  have hlo : (0 : ℤ) ≤ pyRoundInt (x * 100 * 10) :=
    pyRoundInt_nonneg _ (by linarith)
  have hhi : pyRoundInt (x * 100 * 10) ≤ 1000 :=
    pyRoundInt_le _ 1000 (by push_cast; linarith)
  constructor
  · positivity
  · rw [div_le_iff (by norm_num : (0 : ℚ) < 10)]
    calc (pyRoundInt (x * 100 * 10) : ℚ) ≤ 1000 := by exact_mod_cast hhi
      _ = 100 * 10 := by norm_num

/-! ## Lemmas: the normalize cache is pure memoization -/

theorem normSt_append (c : Cache) (s : List ℕ) :
    ∃ t, (normSt c s).2 = c ++ t ∧ cacheOK t := by
  unfold normSt
  split
  · exact ⟨[], by simp, by simp [cacheOK]⟩
  · rename_i hs
    cases h : cacheLookup c s with
    | some v => exact ⟨[], by simp [h], by simp [cacheOK]⟩
    | none =>
      refine ⟨[(s, normCore s)], by simp [h], ?_⟩
      intro p hp
      rcases List.mem_singleton.mp hp with rfl
      exact ⟨hs, rfl⟩

theorem normSt_val (c : Cache) (hc : cacheOK c) (s : List ℕ) :
    (normSt c s).1 = norm s := by
  unfold normSt
  split
  · rename_i hs
    rw [norm, if_pos hs]
  · rename_i hs
    cases h : cacheLookup c s with
    | some v =>
      have hv : v = normCore s := by
        unfold cacheLookup at h
        rcases Option.map_eq_some'.mp h with ⟨p, hp, hpv⟩
        have hps := List.find?_some hp
        have hmem := List.mem_of_find?_eq_some hp
        have := (hc p hmem).2
        rw [← hpv, this]
        congr 1
        exact (by simpa using hps : p.1 = s)
      rw [hv, norm, if_neg hs]
    | none =>
      rw [norm, if_neg hs]

theorem cacheOK_append (c t : Cache) (hc : cacheOK c) (ht : cacheOK t) :
    cacheOK (c ++ t) := by
  intro p hp
  rcases List.mem_append.mp hp with h | h
  · exact hc p h
  · exact ht p h

theorem normSt_cacheOK (c : Cache) (hc : cacheOK c) (s : List ℕ) :
    cacheOK (normSt c s).2 := by
  rcases normSt_append c s with ⟨t, heq, ht⟩
  rw [heq]
  exact cacheOK_append c t hc ht

theorem normListSt_go (ss : List (List ℕ)) :
    ∀ (acc : List (List ℕ)) (c : Cache),
      (ss.foldl
        (fun (acc : List (List ℕ) × Cache) s =>
          let r := normSt acc.2 s
          (acc.1 ++ [r.1], r.2)) (acc, c)).1 =
        (if cacheOK c then acc ++ ss.map norm else
          (ss.foldl
            (fun (acc : List (List ℕ) × Cache) s =>
              let r := normSt acc.2 s
              (acc.1 ++ [r.1], r.2)) (acc, c)).1) ∧
      (∃ t, (ss.foldl
        (fun (acc : List (List ℕ) × Cache) s =>
          let r := normSt acc.2 s
          (acc.1 ++ [r.1], r.2)) (acc, c)).2 = c ++ t ∧ cacheOK t) := by
  induction ss with
  | nil =>
    intro acc c
    refine ⟨by split <;> simp, ⟨[], by simp, by simp [cacheOK]⟩⟩
  | cons s ss ih =>
    intro acc c
    rw [List.foldl_cons]
    rcases ih (acc ++ [(normSt c s).1]) (normSt c s).2 with ⟨ih1, ih2⟩
    constructor
    · split
      · rename_i hc
        rw [ih1, if_pos (normSt_cacheOK c hc s), normSt_val c hc s]
        simp
      · rfl
    · rcases ih2 with ⟨t, heq, ht⟩
      rcases normSt_append c s with ⟨t0, heq0, ht0⟩
      refine ⟨t0 ++ t, ?_, cacheOK_append t0 t ht0 ht⟩
      rw [heq, heq0, List.append_assoc]

theorem normListSt_val (c : Cache) (hc : cacheOK c) (ss : List (List ℕ)) :
    (normListSt c ss).1 = ss.map norm := by
  have h := (normListSt_go ss [] c).1
  rw [if_pos hc] at h
  simpa [normListSt] using h

theorem normListSt_append (c : Cache) (ss : List (List ℕ)) :
    ∃ t, (normListSt c ss).2 = c ++ t ∧ cacheOK t :=
  (normListSt_go ss [] c).2

theorem normListSt_cacheOK (c : Cache) (hc : cacheOK c) (ss : List (List ℕ)) :
    cacheOK (normListSt c ss).2 := by
  rcases normListSt_append c ss with ⟨t, heq, ht⟩
  rw [heq]
  exact cacheOK_append c t hc ht

theorem o_predictSt_frame (e : OEngineSt) (l : List (List ℕ)) :
    (o_predictSt e l).2.rows = e.rows ∧
      (o_predictSt e l).2.availableSymptoms = e.availableSymptoms ∧
      (o_predictSt e l).2.minThreshold = e.minThreshold ∧
      ∃ t, (o_predictSt e l).2.cache = e.cache ++ t ∧ cacheOK t := by
  simp only [o_predictSt]
  split
  · exact ⟨rfl, rfl, rfl, [], by simp, by simp [cacheOK]⟩
  · rcases normListSt_append e.cache (l.filter (fun s => s ≠ [])) with ⟨t, heq, ht⟩
    split
    · exact ⟨rfl, rfl, rfl, t, heq, ht⟩
    · exact ⟨rfl, rfl, rfl, t, heq, ht⟩

theorem o_predictSt_val (e : OEngineSt) (l : List (List ℕ)) (hc : cacheOK e.cache) :
    (o_predictSt e l).1 = o_predict (projO e) l ∧ cacheOK (o_predictSt e l).2.cache := by
  have hval := normListSt_val e.cache hc (l.filter (fun s => s ≠ []))
  have hok : cacheOK (o_predictSt e l).2.cache := by
    rcases o_predictSt_frame e l with ⟨-, -, -, t, heq, ht⟩
    rw [heq]
    exact cacheOK_append _ _ hc ht
  refine ⟨?_, hok⟩
  simp only [o_predictSt, o_predict, oInputNorm, bestState, projO]
  split
  · rfl
  · rw [hval]
    split <;> rfl

theorem o_getAvailableSymptomsSt_frame (e : OEngineSt) :
    (o_getAvailableSymptomsSt e).2 = e := rfl

theorem rf_vectorizeSt_go (l : List (List ℕ)) (vocab : List (List ℕ)) :
    ∀ (vec : List ℕ) (c : Cache), cacheOK c →
      (l.foldl
        (fun (acc : List ℕ × Cache) s =>
          let r := normSt acc.2 s
          (match symptomIndex vocab r.1 with
           | some idx => acc.1.set idx 1
           | none => acc.1,
           r.2)) (vec, c)).1 =
        l.foldl
          (fun vec s =>
            match symptomIndex vocab (norm s) with
            | some idx => vec.set idx 1
            | none => vec) vec ∧
      cacheOK (l.foldl
        (fun (acc : List ℕ × Cache) s =>
          let r := normSt acc.2 s
          (match symptomIndex vocab r.1 with
           | some idx => acc.1.set idx 1
           | none => acc.1,
           r.2)) (vec, c)).2 ∧
      ∃ t, (l.foldl
        (fun (acc : List ℕ × Cache) s =>
          let r := normSt acc.2 s
          (match symptomIndex vocab r.1 with
           | some idx => acc.1.set idx 1
           | none => acc.1,
           r.2)) (vec, c)).2 = c ++ t := by
  induction l with
  | nil =>
    intro vec c hc
    exact ⟨rfl, hc, [], by simp⟩
  | cons s l ih =>
    intro vec c hc
    simp only [List.foldl_cons]
    have hv := normSt_val c hc s
    have hok := normSt_cacheOK c hc s
    rcases normSt_append c s with ⟨t0, heq0, -⟩
    rcases ih (match symptomIndex vocab (norm s) with
               | some idx => vec.set idx 1
               | none => vec) (normSt c s).2 hok with ⟨ih1, ih2, t, iht⟩
    rw [hv]
    refine ⟨ih1, ih2, t0 ++ t, ?_⟩
    rw [iht, heq0, List.append_assoc]

theorem rf_vectorizeSt_val (e : RFEngineSt) (l : List (List ℕ))
    (hc : cacheOK e.cache) :
    (rf_vectorizeSt e.cache e.vocab l).1 = rf_vectorize (projRF e) l ∧
      cacheOK (rf_vectorizeSt e.cache e.vocab l).2 ∧
      ∃ t, (rf_vectorizeSt e.cache e.vocab l).2 = e.cache ++ t := by
  have h := rf_vectorizeSt_go l e.vocab (List.replicate e.vocab.length 0) e.cache hc
  exact h

theorem bestRecommendationsSt_val (c : Cache) (hc : cacheOK c) (rows : List RFRow)
    (disease : List ℕ) (inputSymptoms : List (List ℕ)) (e : RFEngine)
    (hrows : e.rows = rows) :
    (bestRecommendationsSt c rows disease inputSymptoms).1 =
      bestRecommendations e disease inputSymptoms ∧
      cacheOK (bestRecommendationsSt c rows disease inputSymptoms).2 ∧
      ∃ t, (bestRecommendationsSt c rows disease inputSymptoms).2 = c ++ t := by
  have hval := normListSt_val c hc (inputSymptoms.filter (fun s => s ≠ []))
  have hok := normListSt_cacheOK c hc (inputSymptoms.filter (fun s => s ≠ []))
  rcases normListSt_append c (inputSymptoms.filter (fun s => s ≠ [])) with ⟨t, heq, -⟩
  refine ⟨?_, hok, t, heq⟩
  simp only [bestRecommendationsSt, bestRecommendations, hrows, hval]

theorem rf_predictSt_ok (e : RFEngineSt) (l : List (List ℕ)) (hc : cacheOK e.cache) :
    (rf_predictSt e l).1 = rf_predict (projRF e) l ∧
      (rf_predictSt e l).2.rows = e.rows ∧
      (rf_predictSt e l).2.vocab = e.vocab ∧
      (rf_predictSt e l).2.model = e.model ∧
      cacheOK (rf_predictSt e l).2.cache ∧
      ∃ t, (rf_predictSt e l).2.cache = e.cache ++ t := by
  rcases rf_vectorizeSt_val e l hc with ⟨hv1, hv2, tv, hvt⟩
  by_cases hl : l = []
  · subst hl
    exact ⟨rfl, rfl, rfl, rfl, hc, [], by simp [rf_predictSt]⟩
  · cases hm : e.model with
    | none =>
      have h1 : rf_predictSt e l = (some rfErrorResult, e) := by
        simp [rf_predictSt, hl, hm]
      have h2 : rf_predict (projRF e) l = some rfErrorResult := by
        simp [rf_predict, projRF, hl, hm]
      rw [h1, h2]
      exact ⟨rfl, rfl, rfl, hm, hc, [], by simp⟩
    | some m =>
      simp only [rf_predictSt, rf_predict, projRF, hl, if_false, hm]
      simp only [projRF, hm] at hv1
      rw [hv1]
      split
      · exact ⟨rfl, rfl, rfl, rfl, hv2, tv, hvt⟩
      · rcases bestRecommendationsSt_val (rf_vectorizeSt e.cache e.vocab l).2 hv2
          e.rows (m.classes.getD (argmaxIdx (m.predictProba
            (rf_vectorize { rows := e.rows, vocab := e.vocab, model := some m } l))) [])
          l { rows := e.rows, vocab := e.vocab, model := some m } rfl with ⟨hb1, hb2, tb, hbt⟩
        rw [hb1]
        refine ⟨rfl, rfl, rfl, rfl, ?_, ?_⟩
        · simpa using hb2
        · refine ⟨tv ++ tb, ?_⟩
          simp only []
          rw [hbt, hvt, List.append_assoc]

/-! ## Lemmas: the predict branches -/

theorem rf_vectorize_zero (e : RFEngine) (l : List (List ℕ))
    (h : ∀ s ∈ l, norm s ∉ e.vocab) :
    rf_vectorize e l = List.replicate e.vocab.length 0 := by
  apply List.ext_getElem?
  intro j
  rw [rf_vectorize_getElem?]
  rw [if_neg]
  rintro ⟨⟨s, hs, hfs⟩, -⟩
  rw [symptomIndex_eq_none e.vocab (norm s) (h s hs)] at hfs
  cases hfs

theorem foldl_stepRow_empty (input : Finset (List ℕ)) (rows : List ORow)
    (st : BestSt) (h : ∀ r ∈ rows, input ∩ r.symptoms = ∅) :
    rows.foldl (stepRow input) st = st := by
  induction rows generalizing st with
  | nil => rfl
  | cons r rows ih =>
    rw [List.foldl_cons]
    have hstep : stepRow input st r = st := by
      unfold stepRow
      rw [if_pos (h r (List.mem_cons_self r rows))]
    rw [hstep]
    exact ih st (fun x hx => h x (List.mem_cons_of_mem r hx))

theorem oInputNorm_ne_empty (l : List (List ℕ)) (s : List ℕ) (hs : s ∈ l)
    (hne : s ≠ []) : oInputNorm l ≠ ∅ := by
  unfold oInputNorm
  intro habs
  have : norm s ∈ ((l.filter (fun s => s ≠ [])).map norm).toFinset := by
    simp only [List.mem_toFinset, List.mem_map]
    exact ⟨s, List.mem_filter.mpr ⟨hs, by simpa using hne⟩, rfl⟩
  rw [habs] at this
  exact absurd this (Finset.not_mem_empty _)

theorem o_predict_eq_finish (e : OEngine) (l : List (List ℕ)) (hl : l ≠ [])
    (hn : oInputNorm l ≠ ∅) :
    o_predict e l = o_finish (bestState e l) e.minThreshold := by
  simp only [o_predict, hl, hn, if_false]

theorem o_finish_low (st : BestSt) (thr : ℚ)
    (h : st.best = none ∨ st.bestScore < thr) :
    o_finish st thr = oLowMatchResult st := by
  unfold o_finish oLowMatchResult
  rw [if_pos h]

theorem o_finish_status (st : BestSt) (thr : ℚ) :
    (o_finish st thr).status = "low_match" ∨
      ((o_finish st thr).status = "success" ∧
        (o_finish st thr).confidence = pyRound1 (st.bestScore * 100)) := by
  unfold o_finish
  split
  · exact Or.inl rfl
  · split
    · exact Or.inl rfl
    · exact Or.inr ⟨rfl, rfl⟩

theorem o_finish_confidence (st : BestSt) (thr : ℚ) :
    (o_finish st thr).confidence = pyRound1 (st.bestScore * 100) := by
  unfold o_finish
  split
  · rfl
  · split <;> rfl

theorem getD_probability_bounds (proba : List ℚ) (i : ℕ)
    (hp : ∀ p ∈ proba, 0 ≤ p ∧ p ≤ 1) :
    0 ≤ proba.getD i 0 ∧ proba.getD i 0 ≤ 1 := by
  by_cases hi : i < proba.length
  · rw [List.getD_eq_getElem proba 0 hi]
    exact hp _ (List.getElem_mem hi)
  · rw [List.getD_eq_default proba 0 (Nat.le_of_not_lt hi)]
    norm_num

theorem norm_idem (s : List ℕ) : norm (norm s) = norm s := by
  by_cases hs : s = []
  · simp [norm, hs]
  · have hn : norm s = normCore s := by rw [norm, if_neg hs]
    rw [hn]
    by_cases ht : normCore s = []
    · simp [norm, ht]
    · rw [norm, if_neg ht]
      exact normCore_normCore s

/-! ## Claim theorems -/

section Claims

attribute [local semireducible] Rat.add Rat.sub Rat.mul Rat.inv

/-- C7: for every raw symptom string `s`, normalization is idempotent:
`normalize(normalize(s)) == normalize(s)`. -/
theorem claim_C7_norm_idempotent : ∀ s : List ℕ, norm (norm s) = norm s :=
  norm_idem

/-- C4: when the normalized input set equals a dataset row's full symptom set,
the per-row Jaccard score `len(inter)/len(union)` is exactly `1`, and for
every input/row pair the score lies in `[0, 1]`. -/
theorem claim_C4_jaccard_score :
    (∀ input rowSet : Finset (List ℕ),
      input = rowSet → input ≠ ∅ → jaccard input rowSet = 1) ∧
    (∀ input rowSet : Finset (List ℕ),
      0 ≤ jaccard input rowSet ∧ jaccard input rowSet ≤ 1) := by
  constructor
  · rintro input rowSet rfl hne
    exact jaccard_self input hne
  · intro input rowSet
    exact ⟨jaccard_nonneg input rowSet, jaccard_le_one input rowSet⟩

/-- Witness for C4 at a concrete one-element set. -/
theorem claim_C4_witness : jaccard {codes "fever"} {codes "fever"} = 1 :=
  claim_C4_jaccard_score.1 {codes "fever"} {codes "fever"} rfl (by decide)

/-- C6: on the empty symptom list both engines return the fixed well-formed
`no_symptoms` result with confidence `0` (a constant, so neither the model
nor the dataset rows are consulted, and no exception can escape). -/
theorem claim_C6_empty_input :
    (∀ e : OEngine, o_predict e [] = oNoSymptomsResult) ∧
    (∀ e : RFEngine, rf_predict e [] = some rfNoSymptomsResult) ∧
    oNoSymptomsResult.status = "no_symptoms" ∧ oNoSymptomsResult.confidence = 0 ∧
    rfNoSymptomsResult.status = "no_symptoms" ∧ rfNoSymptomsResult.confidence = 0 :=
  ⟨fun _ => rfl, fun _ => rfl, rfl, rfl, rfl, rfl⟩

/-- C9: for every dataset, both engines' vocabularies are sorted
lexicographically without duplicates and contain exactly the non-empty
normalized tokens extracted from the rows' cells (each a fixed point of
`norm`), and `symptom_index` is a bijection between the RF vocabulary and
`[0, N)`. -/
theorem claim_C9_vocabulary (raw : List RawRow) :
    List.Sorted (· ≤ ·) (rf_prepareVocab raw) ∧
    (rf_prepareVocab raw).Nodup ∧
    (∀ t, t ∈ rf_prepareVocab raw ↔
      (t ≠ [] ∧ ∃ r ∈ raw, ∃ c ∈ r.cells, t ∈ rf_split_cell c)) ∧
    (∀ t ∈ rf_prepareVocab raw, norm t = t) ∧
    (∀ i, i < (rf_prepareVocab raw).length →
      symptomIndex (rf_prepareVocab raw) ((rf_prepareVocab raw).getD i []) = some i) ∧
    (∀ t j, symptomIndex (rf_prepareVocab raw) t = some j →
      j < (rf_prepareVocab raw).length ∧ (rf_prepareVocab raw).getD j [] = t) ∧
    (∀ t, t ∉ rf_prepareVocab raw → symptomIndex (rf_prepareVocab raw) t = none) ∧
    List.Sorted (· ≤ ·) (o_prepareVocab raw) ∧
    (o_prepareVocab raw).Nodup ∧
    (∀ t, t ∈ o_prepareVocab raw ↔
      (t ≠ [] ∧ ∃ r ∈ raw, ∃ c ∈ r.cells, t ∈ o_split_cell (strOfCell c))) ∧
    (∀ t ∈ o_prepareVocab raw, norm t = t) := by
  refine ⟨sortedUnique_sorted _, sortedUnique_nodup _, mem_rf_prepareVocab raw, ?_,
    fun i hi => symptomIndex_getD _ (sortedUnique_nodup _) i hi,
    fun t j h => symptomIndex_some _ t j h,
    fun t h => symptomIndex_eq_none _ t h,
    sortedUnique_sorted _, sortedUnique_nodup _, ?_, ?_⟩
  · intro t ht
    rcases (mem_rf_prepareVocab raw t).mp ht with ⟨-, r, -, c, -, hsplit⟩
    rcases rf_split_cell_mem c t hsplit with ⟨p, rfl⟩
    exact norm_idem p
  · intro t
    rw [mem_o_prepareVocab raw t]
    constructor
    · rintro ⟨r, hr, c, hc, hsplit⟩
      exact ⟨(o_split_cell_mem _ t hsplit).1, r, hr, c, hc, hsplit⟩
    · rintro ⟨-, r, hr, c, hc, hsplit⟩
      exact ⟨r, hr, c, hc, hsplit⟩
  · intro t ht
    rcases (mem_o_prepareVocab raw t).mp ht with ⟨r, -, c, -, hsplit⟩
    rcases (o_split_cell_mem _ t hsplit).2 with ⟨p, rfl⟩
    exact norm_idem p

/-- Witness for C9 on the concrete test dataset. -/
theorem claim_C9_witness :
    symptomIndex (rf_prepareVocab testRaw) ((rf_prepareVocab testRaw).getD 2 []) = some 2 ∧
    (codes "fever" ∈ rf_prepareVocab testRaw) ∧
    (codes "fever" ∈ o_prepareVocab testRaw) :=
  ⟨(claim_C9_vocabulary testRaw).2.2.2.2.1 2 (by decide),
   ((claim_C9_vocabulary testRaw).2.2.1 (codes "fever")).mpr (by decide),
   ((claim_C9_vocabulary testRaw).2.2.2.2.2.2.2.2.2.1 (codes "fever")).mpr (by decide)⟩

/-- C8: the feature vector depends only on the set of normalized input
symptoms: it is invariant under permutation (and hence under order and
multiplicity) in both the RF engine's `_vectorize` and the custom engine's
`_create_feature_vector`. -/
theorem claim_C8_vectorize_order_independent :
    (∀ (e : RFEngine) (l l' : List (List ℕ)), l.Perm l' →
      rf_vectorize e l = rf_vectorize e l') ∧
    (∀ (e : RFEngine) (l l' : List (List ℕ)),
      (l.map norm).toFinset = (l'.map norm).toFinset →
      rf_vectorize e l = rf_vectorize e l') ∧
    (∀ (e : CustomEngine) (l l' : List (List ℕ)), l.Perm l' →
      customCreateFeatureVector e l = customCreateFeatureVector e l') ∧
    (∀ (e : CustomEngine) (l l' : List (List ℕ)),
      (l.map customNorm).toFinset = (l'.map customNorm).toFinset →
      customCreateFeatureVector e l = customCreateFeatureVector e l') := by
  refine ⟨?_, rf_vectorize_eq_of_normSet, ?_, customVector_eq_of_normSet⟩
  · intro e l l' h
    exact rf_vectorize_eq_of_normSet e l l'
      (List.toFinset_eq_of_perm _ _ (h.map norm))
  · intro e l l' h
    exact customVector_eq_of_normSet e l l'
      (List.toFinset_eq_of_perm _ _ (h.map customNorm))

/-- Witness for C8: a concrete permutation with a repeated symptom. -/
theorem claim_C8_witness :
    rf_vectorize testRF [codes "fever", codes "cough"] =
      rf_vectorize testRF [codes "cough", codes "fever"] ∧
    rf_vectorize testRF [codes "fever", codes "cough"] =
      rf_vectorize testRF [codes "cough", codes "fever", codes "fever"] :=
  ⟨claim_C8_vectorize_order_independent.1 testRF
      [codes "fever", codes "cough"] [codes "cough", codes "fever"] (by decide),
   claim_C8_vectorize_order_independent.2.1 testRF
      [codes "fever", codes "cough"] [codes "cough", codes "fever", codes "fever"]
      (by decide)⟩

/-- C5: whenever every dataset row scores strictly below the configured
threshold against a scored input (non-empty, with at least one truthy
symptom), the overlap engine reports `low_match`, carries the raw tracked
best score in its debug payload, and does not report `success`. -/
theorem claim_C5_below_threshold (e : OEngine) (l : List (List ℕ))
    (hl : l ≠ []) (hs : ∃ s ∈ l, s ≠ [])
    (hbelow : ∀ r ∈ e.rows, jaccard (oInputNorm l) r.symptoms < e.minThreshold) :
    (o_predict e l).status = "low_match" ∧
    (o_predict e l).debugScore = some (bestState e l).bestScore ∧
    (o_predict e l).status ≠ "success" := by
  rcases hs with ⟨s, hsl, hsne⟩
  have hn : oInputNorm l ≠ ∅ := oInputNorm_ne_empty l s hsl hsne
  rw [o_predict_eq_finish e l hl hn]
  have hlow : (bestState e l).best = none ∨ (bestState e l).bestScore < e.minThreshold := by
    rcases bestState_inv e l with ⟨hb, -⟩ | ⟨-, x, hx, hsc⟩
    · exact Or.inl hb
    · exact Or.inr (hsc ▸ hbelow x hx)
  rw [o_finish_low _ _ hlow]
  exact ⟨rfl, rfl, by simp [oLowMatchResult]⟩

/-- Witness for C5: one shared symptom diluted by eight unknown ones scores
`1/11` against "Flu" and `1/10` against "Cold", both below `0.12`. -/
theorem claim_C5_witness :
    (o_predict testO lowInput).status = "low_match" ∧
    (o_predict testO lowInput).debugScore = some (bestState testO lowInput).bestScore ∧
    (o_predict testO lowInput).status ≠ "success" :=
  claim_C5_below_threshold testO lowInput (by decide)
    ⟨codes "cough", by decide, by decide⟩ (by decide)

/-- C10: the confidence field returned by `predict` lies in `[0, 100]` in
every status branch: unconditionally for the overlap engine
(`no_symptoms`, `unrecognized`, `low_match`, `success`), and for every RF
engine — including `model = None`, whose `error` branch returns the constant
`rfErrorResult` with confidence `0` — under scikit-learn's contract that
whatever trained model exists yields `predict_proba` values in `[0, 1]`. -/
theorem claim_C10_confidence_bounds :
    (∀ (e : OEngine) (l : List (List ℕ)),
      0 ≤ (o_predict e l).confidence ∧ (o_predict e l).confidence ≤ 100) ∧
    (∀ e : RFEngine,
      (∀ m : RFModel, e.model = some m →
        ∀ v p, p ∈ m.predictProba v → 0 ≤ p ∧ p ≤ 1) →
      ∀ (l : List (List ℕ)) (r : RFResult), rf_predict e l = some r →
        0 ≤ r.confidence ∧ r.confidence ≤ 100) ∧
    (∀ (e : RFEngine) (l : List (List ℕ)), l ≠ [] → e.model = none →
      rf_predict e l = some rfErrorResult) ∧
    rfErrorResult.confidence = 0 ∧ rfErrorResult.status = "error" := by
  refine ⟨?_, ?_, ?_, rfl, rfl⟩
  · intro e l
    by_cases hl : l = []
    · subst hl
      rw [show o_predict e [] = oNoSymptomsResult from rfl]
      norm_num [oNoSymptomsResult]
    · by_cases hn : oInputNorm l = ∅
      · have : o_predict e l = oUnrecognizedResult := by
          simp only [o_predict, hl, if_false, hn, if_true]
        rw [this]
        norm_num [oUnrecognizedResult]
      · rw [o_predict_eq_finish e l hl hn, o_finish_confidence]
        exact pyRound1_bounds _ (bestScore_nonneg e l) (bestScore_le_one e l)
  · intro e hprob l r h
    by_cases hl : l = []
    · subst hl
      rw [show rf_predict e [] = some rfNoSymptomsResult from rfl] at h
      cases h
      norm_num [rfNoSymptomsResult]
    · cases hm : e.model with
      | none =>
        simp only [rf_predict, hl, if_false, hm] at h
        cases h
        norm_num [rfErrorResult]
      | some m =>
        have hp := hprob m hm
        simp only [rf_predict, hl, if_false, hm] at h
        split at h
        · cases h
          norm_num [rfUnrecognizedResult]
        · split at h
          · cases h
          · cases h
            refine pyRound1_bounds _ ?_ ?_
            · exact (getD_probability_bounds _ _ (hp _)).1
            · exact (getD_probability_bounds _ _ (hp _)).2
  · intro e l hl hm
    simp only [rf_predict, hl, if_false, hm]

/-- Witness for C10: the success branch on the concrete RF engine with a
fixed probability split, and the error branch on the same dataset with no
model. -/
theorem claim_C10_witness :
    (0 ≤ rfFeverResult.confidence ∧ rfFeverResult.confidence ≤ 100) ∧
    rf_predict (rf_init testRaw none) [codes "fever"] = some rfErrorResult :=
  ⟨claim_C10_confidence_bounds.2.1 testRF
    (by
      intro m hm v p hp
      have hm' : some testModel = some m := hm
      cases hm'
      rcases List.mem_cons.mp hp with rfl | hp'
      · constructor <;> norm_num
      · rcases List.mem_singleton.mp hp' with rfl
        constructor <;> norm_num)
    [codes "fever"] rfFeverResult (by decide),
   claim_C10_confidence_bounds.2.2.1 (rf_init testRaw none) [codes "fever"]
     (by decide) rfl⟩

/-- C1 (counterexample): a non-empty input whose only symptom maps to no
vocabulary token; the overlap engine returns `low_match`, not `unrecognized`
as the claim requires. -/
theorem claim_C1_counterexample :
    ([codes "xyzzy"] ≠ ([] : List (List ℕ))) ∧
    (∀ s ∈ [codes "xyzzy"], norm s ∉ testO.availableSymptoms) ∧
    (o_predict testO [codes "xyzzy"]).status ≠ "unrecognized" ∧
    (o_predict testO [codes "xyzzy"]).status = "low_match" := by
  decide

/-- C1 (amended): the RF engine returns `unrecognized` whenever a non-empty
input vectorizes to the zero vector (all symptoms outside the vocabulary);
the overlap engine returns `unrecognized` only when every entry is the empty
string, and returns `low_match` (with no best row) when non-empty symptoms
miss every row's symptom set; the two statuses are distinct strings. -/
theorem claim_C1_amended :
    (∀ (e : RFEngine) (m : RFModel) (l : List (List ℕ)), e.model = some m →
      l ≠ [] → (∀ s ∈ l, norm s ∉ e.vocab) →
      rf_predict e l = some rfUnrecognizedResult) ∧
    (∀ (e : OEngine) (l : List (List ℕ)), l ≠ [] → (∀ s ∈ l, s = []) →
      (o_predict e l).status = "unrecognized") ∧
    (∀ (e : OEngine) (l : List (List ℕ)), l ≠ [] → (∃ s ∈ l, s ≠ []) →
      (∀ s ∈ l, ∀ r ∈ e.rows, norm s ∉ r.symptoms) →
      (o_predict e l).status = "low_match") ∧
    ("unrecognized" ≠ "low_match") := by
  refine ⟨?_, ?_, ?_, by decide⟩
  · intro e m l hm hl hvoc
    have hz : rf_vectorize e l = List.replicate e.vocab.length 0 :=
      rf_vectorize_zero e l hvoc
    have hsum : (rf_vectorize e l).sum = 0 := by
      rw [hz]
      simp
    simp only [rf_predict, hl, if_false, hm, hsum, if_true]
  · intro e l hl hall
    have hfilter : l.filter (fun s => s ≠ []) = [] := by
      rw [List.filter_eq_nil_iff]
      intro a ha
      simp [hall a ha]
    have hn : oInputNorm l = ∅ := by
      unfold oInputNorm
      rw [hfilter]
      rfl
    simp only [o_predict, hl, if_false, hn, if_true]
    rfl
  · intro e l hl hs hmiss
    rcases hs with ⟨s, hsl, hsne⟩
    have hn : oInputNorm l ≠ ∅ := oInputNorm_ne_empty l s hsl hsne
    rw [o_predict_eq_finish e l hl hn]
    have hempty : ∀ r ∈ e.rows, oInputNorm l ∩ r.symptoms = ∅ := by
      intro r hr
      apply Finset.eq_empty_of_forall_not_mem
      intro x hx
      rcases Finset.mem_inter.mp hx with ⟨hx1, hx2⟩
      unfold oInputNorm at hx1
      rcases List.mem_map.mp (List.mem_toFinset.mp hx1) with ⟨s', hs', rfl⟩
      exact hmiss s' (List.mem_filter.mp hs').1 r hr hx2
    have hb : bestState e l = ⟨none, 0⟩ :=
      foldl_stepRow_empty (oInputNorm l) e.rows ⟨none, 0⟩ hempty
    rw [hb, o_finish_low _ _ (Or.inl rfl)]
    rfl

/-- Witness for C1 (amended) at concrete inputs on the test engines. -/
theorem claim_C1_witness :
    rf_predict testRF [codes "xyzzy"] = some rfUnrecognizedResult ∧
    (o_predict testO [[]]).status = "unrecognized" ∧
    (o_predict testO [codes "zork"]).status = "low_match" :=
  ⟨claim_C1_amended.1 testRF testModel [codes "xyzzy"] rfl (by decide) (by decide),
   claim_C1_amended.2.1 testO [[]] (by decide) (by decide),
   claim_C1_amended.2.2.1 testO [codes "zork"] (by decide)
     ⟨codes "zork", by decide, by decide⟩ (by decide)⟩

/-- C2 (counterexample): a fresh symptom string mutates the engine's
normalize cache during `predict`, so the post-call state differs from the
pre-call state of the initialized engine. -/
theorem claim_C2_counterexample :
    (o_predictSt testOSt [codes "Headache"]).2 ≠ testOSt ∧
    (o_predictSt testOSt [codes "Headache"]).2.cache ≠ testOSt.cache := by
  decide

/-- C2 (amended): after initialization, `predict` leaves the dataset rows,
vocabulary, threshold and model of both engines unchanged and only appends
pure-memoization entries (`cache[s] = normCore s`) to the normalize cache;
given a well-formed cache the returned result equals the cache-free
prediction, and `get_available_symptoms` changes nothing at all. -/
theorem claim_C2_amended :
    (∀ (e : OEngineSt) (l : List (List ℕ)),
      (o_predictSt e l).2.rows = e.rows ∧
      (o_predictSt e l).2.availableSymptoms = e.availableSymptoms ∧
      (o_predictSt e l).2.minThreshold = e.minThreshold ∧
      (∃ t, (o_predictSt e l).2.cache = e.cache ++ t ∧ cacheOK t) ∧
      (cacheOK e.cache →
        (o_predictSt e l).1 = o_predict (projO e) l ∧
          cacheOK (o_predictSt e l).2.cache)) ∧
    (∀ e : OEngineSt, (o_getAvailableSymptomsSt e).2 = e) ∧
    (∀ (e : RFEngineSt) (l : List (List ℕ)), cacheOK e.cache →
      (rf_predictSt e l).1 = rf_predict (projRF e) l ∧
      (rf_predictSt e l).2.rows = e.rows ∧
      (rf_predictSt e l).2.vocab = e.vocab ∧
      (rf_predictSt e l).2.model = e.model ∧
      cacheOK (rf_predictSt e l).2.cache ∧
      ∃ t, (rf_predictSt e l).2.cache = e.cache ++ t) := by
  refine ⟨?_, o_getAvailableSymptomsSt_frame, rf_predictSt_ok⟩
  intro e l
  rcases o_predictSt_frame e l with ⟨h1, h2, h3, h4⟩
  exact ⟨h1, h2, h3, h4, o_predictSt_val e l⟩

/-- Witness for C2 (amended) on the initialized test engines. -/
theorem claim_C2_witness :
    (o_predictSt testOSt [codes "Headache"]).1 =
      o_predict (projO testOSt) [codes "Headache"] ∧
    (rf_predictSt testRFSt [codes "fever"]).2.vocab = testRFSt.vocab :=
  ⟨((claim_C2_amended.1 testOSt [codes "Headache"]).2.2.2.2 (by decide)).1,
   (claim_C2_amended.2.2 testRFSt [codes "fever"] (by decide)).2.2.1⟩

/-- C3: evaluation at the missing-value marker.  The empty string normalizes
to the empty string and the empty token is excluded from both vocabularies;
but the overlap engine's `_split_cell`, receiving `str(cell) = 'nan'` for a
missing cell, normalizes it to the non-empty token `'nan'` and admits it into
the vocabulary, while the RF engine's `_split_cell` filters it out. -/
theorem claim_C3_nan_marker :
    norm [] = [] ∧
    norm (codes "nan") = codes "nan" ∧
    o_split_cell (strOfCell none) = [codes "nan"] ∧
    rf_split_cell none = [] ∧
    rf_split_cell (some (codes "nan")) = [] ∧
    (codes "nan" ∈ o_prepareVocab [nanRow]) ∧
    (codes "nan" ∉ rf_prepareVocab [nanRow]) ∧
    ([] ∉ o_prepareVocab [nanRow]) ∧
    ([] ∉ rf_prepareVocab [nanRow]) := by
  decide

end Claims

end MedAssist
